import Mathlib

/-!
Verification of the mcumgr-client SMP transport core (rudislabs/mcumgr-client).

Shallow embedding of src/nmp_hdr.rs and src/transfer.rs (header codecs,
CRC16/XMODEM, base64 framing, serial receive loop, UDP transceive) together
with the rc-extraction and file-transfer adapter logic of src/fs.rs,
src/os.rs and src/shell.rs.  Machine integers (u8/u16/u32/i32) are modelled
as `Nat`/`Int` with explicit `% 2^w` where the Rust code truncates; byte
buffers are `List Nat` whose elements are intended to be `< 256` (stated as
hypotheses where a proof needs it); fallible Rust paths return `Option` or a
dedicated result inductive, with a separate constructor for paths on which
the Rust code panics (`Option::unwrap` on `None`, out-of-range slicing).
CBOR values are modelled structurally (`serde_cbor::Value`); CBOR byte-level
(de)serialization of bodies is kept abstract: transports carry the raw body
bytes.
-/

namespace McumgrClient

/-- `NmpOp` from src/nmp_hdr.rs: `Read = 0`, `ReadRsp = 1`, `Write = 2`,
`WriteRsp = 3` (`#[repr(u8)]`). -/
inductive NmpOp
  | Read
  | ReadRsp
  | Write
  | WriteRsp
deriving DecidableEq, Repr

/-- The `u8` value of an `NmpOp` (`op as u8`). -/
def NmpOp.toU8 : NmpOp → Nat
  | .Read => 0
  | .ReadRsp => 1
  | .Write => 2
  | .WriteRsp => 3

/-- `num::FromPrimitive::from_u8` for `NmpOp` (derived `FromPrimitive`). -/
def NmpOp.fromU8 : Nat → Option NmpOp
  | 0 => some .Read
  | 1 => some .ReadRsp
  | 2 => some .Write
  | 3 => some .WriteRsp
  | _ => none

/-- `NmpGroup` from src/nmp_hdr.rs (`#[repr(u16)]`): the closed set of group
identifiers `{0..9, 64}`. -/
inductive NmpGroup
  | Default
  | Image
  | Stat
  | Config
  | Log
  | Crash
  | Split
  | Run
  | Fs
  | Shell
  | PerUser
deriving DecidableEq, Repr

/-- The `u16` value of an `NmpGroup` (`group as u16`). -/
def NmpGroup.toU16 : NmpGroup → Nat
  | .Default => 0
  | .Image => 1
  | .Stat => 2
  | .Config => 3
  | .Log => 4
  | .Crash => 5
  | .Split => 6
  | .Run => 7
  | .Fs => 8
  | .Shell => 9
  | .PerUser => 64

/-- `num::FromPrimitive::from_u16` for `NmpGroup` (derived `FromPrimitive`). -/
def NmpGroup.fromU16 (n : Nat) : Option NmpGroup :=
  if n = 0 then some .Default
  else if n = 1 then some .Image
  else if n = 2 then some .Stat
  else if n = 3 then some .Config
  else if n = 4 then some .Log
  else if n = 5 then some .Crash
  else if n = 6 then some .Split
  else if n = 7 then some .Run
  else if n = 8 then some .Fs
  else if n = 9 then some .Shell
  else if n = 64 then some .PerUser
  else none

/-- `NmpHdr` from src/nmp_hdr.rs.  Field widths in Rust: `flags: u8`,
`len: u16`, `seq: u8`, `id: u8`; modelled as `Nat` with the width constraints
imposed where theorems need them. -/
structure NmpHdr where
  op : NmpOp
  flags : Nat
  len : Nat
  group : NmpGroup
  seq : Nat
  id : Nat
deriving DecidableEq, Repr

/-- Big-endian bytes of `n as u16` (`byteorder::WriteBytesExt::write_u16::<BigEndian>`
composed with Rust's truncating `as u16` cast). -/
def u16beBytes (n : Nat) : List Nat :=
  [n / 256 % 256, n % 256]

/-- `NmpHdr::serialize`: writes `op`, `flags`, `len` (u16 BE), `group`
(u16 BE), `seq`, `id`, in that order.  The `% 256` / `% 65536` reductions
model the Rust field types (`u8`/`u16`); they are the identity on
well-formed headers. -/
def NmpHdr.serialize (h : NmpHdr) : List Nat :=
  [h.op.toU8, h.flags % 256, h.len / 256 % 256, h.len % 256,
   h.group.toU16 / 256 % 256, h.group.toU16 % 256, h.seq % 256, h.id % 256]

/-- Result of `NmpHdr::deserialize`.  `eofErr` is the `bincode::Error`
returned when the cursor runs out of bytes (`read_u8`/`read_u16` fail);
`panic` models the `Option::unwrap()` calls on
`num::FromPrimitive::from_u8`/`from_u16` for an unknown `op` or `group`
enumerant, which abort instead of returning a decode error. -/
inductive DeserOut
  | ok (h : NmpHdr)
  | eofErr
  | panic
deriving DecidableEq, Repr

/-- `NmpHdr::deserialize` on a byte buffer: reads `op` (1), `flags` (1),
`len` (2, BE), `group` (2, BE), `seq` (1), `id` (1). -/
def NmpHdr.deserialize (data : List Nat) : DeserOut :=
  match data with
  | b0 :: b1 :: b2 :: b3 :: b4 :: b5 :: b6 :: b7 :: _ =>
    match NmpOp.fromU8 b0 with
    | none => .panic
    | some op =>
      match NmpGroup.fromU16 (b4 * 256 + b5) with
      | none => .panic
      | some g => .ok ⟨op, b1, b2 * 256 + b3, g, b6, b7⟩
  | _ => .eofErr

/-- One shift-and-conditionally-xor round of CRC16 with polynomial 0x1021
(crc16 crate, XMODEM parameters: init 0, no reflection, no xor-out). -/
def crcRound (c : Nat) : Nat :=
  if 0x8000 ≤ c then ((c * 2) ^^^ 0x1021) % 65536 else c * 2 % 65536

/-- Eight CRC rounds: one input byte's worth of shifting. -/
def crc8Rounds (c : Nat) : Nat :=
  crcRound (crcRound (crcRound (crcRound (crcRound (crcRound (crcRound (crcRound c)))))))

/-- `State::<XMODEM>::calculate`: fold each byte in with `crc ^= byte << 8`
followed by eight rounds. -/
def crc16Xmodem (data : List Nat) : Nat :=
  data.foldl (fun c b => crc8Rounds (c ^^^ b % 256 * 256)) 0

/-- State reached by the `next_seq_id` counter (an `AtomicU8` initialized to
a random byte `s0`) after `k` calls: each call does `fetch_add(1)` with
8-bit wraparound. -/
def seqStateAfter (s0 : Nat) : Nat → Nat
  | 0 => s0 % 256
  | k + 1 => (seqStateAfter s0 k + 1) % 256

/-- The value returned by the `(k+1)`-th call to `next_seq_id` when the
counter was initialized to `s0`: `fetch_add` returns the previous value. -/
def seqIdAt (s0 k : Nat) : Nat :=
  seqStateAfter s0 k

/-- `UdpTransport::encode_header` (src/transfer.rs): SMP v2 header with
byte 0 `= ((version & 0x03) << 3) | (op as u8 & 0x07)`, `version = 1`,
`flags = 0`, then `len` (u16 BE), `group` (u16 BE), `seq`, `id`. -/
def udpEncodeHeader (op : NmpOp) (group : NmpGroup) (id len seq : Nat) : List Nat :=
  [(1 % 4) * 8 ||| op.toU8 % 8, 0, len / 256 % 256, len % 256,
   group.toU16 / 256 % 256, group.toU16 % 256, seq % 256, id % 256]

/-- Result of `UdpTransport::decode_header`: every failure path is a
returned `anyhow` error (`bail!`), no panics. -/
inductive UdpDecodeOut
  | ok (h : NmpHdr)
  | errShort
  | errUnknownOp
  | errUnknownGroup
deriving DecidableEq, Repr

/-- `UdpTransport::decode_header`: requires at least 8 bytes, takes `op`
from the low three bits of byte 0, rejects unknown `op`/`group`, and builds
the header with `flags = 0`. -/
def udpDecodeHeader (data : List Nat) : UdpDecodeOut :=
  match data with
  | b0 :: _b1 :: b2 :: b3 :: b4 :: b5 :: b6 :: b7 :: _ =>
    match NmpOp.fromU8 (b0 &&& 7) with
    | none => .errUnknownOp
    | some op =>
      match NmpGroup.fromU16 (b4 * 256 + b5) with
      | none => .errUnknownGroup
      | some g => .ok ⟨op, 0, b2 * 256 + b3, g, b6, b7⟩
  | _ => .errShort

/-- The standard base64 alphabet (`base64::alphabet::STANDARD`), as the byte
of the character for a 6-bit index. -/
def b64EncChar (n : Nat) : Nat :=
  if n < 26 then 65 + n
  else if n < 52 then 97 + (n - 26)
  else if n < 62 then 48 + (n - 52)
  else if n = 62 then 43
  else 47

/-- Inverse alphabet lookup used by base64 decoding; `none` for any byte
outside the standard alphabet (including the pad byte 61, `'='`). -/
def b64DecChar (c : Nat) : Option Nat :=
  if 65 ≤ c ∧ c ≤ 90 then some (c - 65)
  else if 97 ≤ c ∧ c ≤ 122 then some (26 + (c - 97))
  else if 48 ≤ c ∧ c ≤ 57 then some (52 + (c - 48))
  else if c = 43 then some 62
  else if c = 47 then some 63
  else none

/-- `general_purpose::STANDARD.encode`: three input bytes per four output
characters, `'='` (61) padded final quantum. -/
def b64Encode : List Nat → List Nat
  | [] => []
  | [a] => [b64EncChar (a / 4), b64EncChar (a % 4 * 16), 61, 61]
  | [a, b] => [b64EncChar (a / 4), b64EncChar (a % 4 * 16 + b / 16),
               b64EncChar (b % 16 * 4), 61]
  | a :: b :: c :: rest =>
    b64EncChar (a / 4) :: b64EncChar (a % 4 * 16 + b / 16) ::
      b64EncChar (b % 16 * 4 + c / 64) :: b64EncChar (c % 64) :: b64Encode rest

/-- `general_purpose::STANDARD.decode` (config `PAD`: canonical padding
required, trailing bits rejected): the input length must be a multiple of
four, `'='` may appear only as canonical padding of the final quantum, and
the unused low bits of the final symbol must be zero. -/
def b64Decode : List Nat → Option (List Nat)
  | [] => some []
  | c1 :: c2 :: c3 :: c4 :: rest =>
    match b64DecChar c1, b64DecChar c2 with
    | some n1, some n2 =>
      if c3 = 61 then
        if c4 = 61 ∧ rest = [] ∧ n2 % 16 = 0 then some [n1 * 4 + n2 / 16] else none
      else
        match b64DecChar c3 with
        | some n3 =>
          if c4 = 61 then
            if rest = [] ∧ n3 % 4 = 0 then
              some [n1 * 4 + n2 / 16, n2 % 16 * 16 + n3 / 4]
            else none
          else
            match b64DecChar c4 with
            | some n4 =>
              match b64Decode rest with
              | some ds =>
                some ((n1 * 4 + n2 / 16) :: (n2 % 16 * 16 + n3 / 4) ::
                      (n3 % 4 * 64 + n4) :: ds)
              | none => none
            | none => none
        | none => none
    | _, _ => none
  | _ => none

/-- The chunking loop of `encode_request` (src/transfer.rs lines 457-472):
while base64 text remains, emit the start designator (`[6, 9]` for the first
chunk, `[4, 20]` for every later one), then at most `w = linelength - 4`
base64 bytes, then a newline.  For `w = 0` the Rust loop would never make
progress (it is reachable only with `linelength ≤ 4`, below the documented
minimum of 6); the model returns `[]` there. -/
def chunkLoop (w : Nat) (first : Bool) (remaining : List Nat) : List Nat :=
  if hw : w = 0 then []
  else
    if hr : remaining = [] then []
    else
      (if first then [6, 9] else [4, 20]) ++ remaining.take w ++ [10] ++
        chunkLoop w false (remaining.drop w)
termination_by remaining.length
decreasing_by
  simp only [List.length_drop]
  have : 0 < remaining.length := List.length_pos.mpr hr
  omega

/-- `encode_request` (src/transfer.rs): build the request header with
`len = body.len() as u16` and the given `seq`, serialize it, append the
body, append the CRC16/XMODEM of `header || body` (u16 BE), prepend the
total length `|header ++ body| + 2` as u16 BE (`serialized.len() as u16`),
base64-encode the whole buffer and split it into marker-framed lines.
Returns the framed byte stream and the request header. -/
def encodeRequest (linelength : Nat) (op : NmpOp) (group : NmpGroup) (id : Nat)
    (body : List Nat) (seqId : Nat) : List Nat × NmpHdr :=
  let requestHdr : NmpHdr :=
    { op := op, flags := 0, len := body.length % 65536, group := group,
      seq := seqId, id := id }
  let serialized := requestHdr.serialize ++ body
  let checksum := crc16Xmodem serialized
  let withCrc := serialized ++ u16beBytes checksum
  let framed := u16beBytes withCrc.length ++ withCrc
  (chunkLoop (linelength - 4) true (b64Encode framed), requestHdr)

/-- Read port bytes until a newline (`0x0A`): returns the bytes before the
newline and the remaining stream; `none` when the stream ends first (a port
read error / timeout in Rust). -/
def readUntilNewline (s : List Nat) : Option (List Nat × List Nat) :=
  match s.dropWhile (fun b => b != 10) with
  | [] => none
  | _ :: r => some (s.takeWhile (fun b => b != 10), r)

/-- Result of the serial receive path.  `err` is any returned error
(`expect_byte` mismatch, port timeout, base64 decode failure, wrong chunk
length, wrong checksum); `panic` models `BigEndian::read_u16` on a buffer
shorter than two bytes, the out-of-range payload slice, and the
`.unwrap()` on `NmpHdr::deserialize`. -/
inductive RecvOut
  | ok (data : List Nat)
  | err
  | panic
deriving DecidableEq, Repr

/-- The chunk-reassembly loop of `transfer::transceive` (src/transfer.rs
lines 494-529): expect the start marker (`6, 9` before any payload byte has
been read, `4, 20` afterwards), accumulate bytes to the newline,
base64-decode the whole accumulated text, latch the expected length from
its first two decoded bytes while the latched value is zero, and stop once
`decoded.len() - 2 ≥ expected_len`. -/
def recvLoop (stream : List Nat) (acc : List Nat) (bytesRead expectedLen : Nat) :
    RecvOut :=
  match stream with
  | m1 :: m2 :: rest =>
    if if bytesRead = 0 then m1 = 6 ∧ m2 = 9 else m1 = 4 ∧ m2 = 20 then
      if hD : rest.dropWhile (fun b => b != 10) = [] then .err
      else
        let payload := rest.takeWhile (fun b => b != 10)
        let rest2 := (rest.dropWhile (fun b => b != 10)).tail
        let acc2 := acc ++ payload
        match b64Decode acc2 with
        | none => .err
        | some decoded =>
          if expectedLen = 0 ∧ decoded.length < 2 then .panic
          else
            let el2 :=
              if expectedLen = 0 then
                if 0 < decoded.getD 0 0 * 256 + decoded.getD 1 0 then
                  decoded.getD 0 0 * 256 + decoded.getD 1 0
                else 0
              else expectedLen
            if el2 ≤ decoded.length - 2 then .ok acc2
            else recvLoop rest2 acc2 (bytesRead + payload.length) el2
    else .err
  | _ => .err
termination_by stream.length
decreasing_by
  have key : ∀ u : List Nat, ((u.dropWhile (fun b => b != 10)).tail).length < u.length + 2 := by
    intro u
    have h1 := (List.dropWhile_sublist (l := u) (p := fun b => b != 10)).length_le
    simp only [List.length_tail]
    omega
  simp only [List.length_cons]
  exact key _

/-- The validation tail of `transfer::transceive` (src/transfer.rs lines
531-547) applied to the reassembled base64 text: decode it, require the
leading u16 BE length to equal `decoded.len() - 2`, split off the trailing
two checksum bytes and require them to equal the CRC16/XMODEM of the middle
region, and return that region (`header || body`). -/
def processFrame (text : List Nat) : RecvOut :=
  match b64Decode text with
  | none => .err
  | some decoded =>
    if decoded.length < 2 then .panic
    else
      let len := decoded.getD 0 0 * 256 + decoded.getD 1 0
      if len ≠ decoded.length - 2 then .err
      else
        if decoded.length < 4 then .panic
        else
          let data := (decoded.drop 2).take (decoded.length - 4)
          let readChecksum :=
            decoded.getD (decoded.length - 2) 0 * 256 +
              decoded.getD (decoded.length - 1) 0
          if readChecksum ≠ crc16Xmodem data then .err else .ok data

/-- The whole serial receive path of `transfer::transceive`: run the
reassembly loop, then validate and strip the accumulated frame. -/
def recvFrame (stream : List Nat) : RecvOut :=
  match recvLoop stream [] 0 0 with
  | .ok text => processFrame text
  | .err => .err
  | .panic => .panic

/-- The request-to-response op mapping used by both transports
(`Read → ReadRsp`, `Write → WriteRsp`); `none` models the
`bail!("unexpected request op type")` arm. -/
def expectedOpType : NmpOp → Option NmpOp
  | .Read => some .ReadRsp
  | .Write => some .WriteRsp
  | _ => none

/-- Result of a `Transport::transceive` call.  `ok` carries the response
header and the raw (still CBOR-encoded) body bytes; `errWrongResponse`
covers the `bail!("wrong sequence number")` / `bail!("wrong response
types")` / UDP `"Sequence mismatch"` paths (spec: `WrongResponseType`);
`errBadOp` is `bail!("unexpected request op type")`; `errOther` is every
other returned error; `panic` is an aborted path. -/
inductive TransOut
  | ok (h : NmpHdr) (bodyBytes : List Nat)
  | errWrongResponse
  | errBadOp
  | errOther
  | panic
deriving DecidableEq, Repr

/-- `SerialTransport::transceive` (src/transfer.rs lines 130-176) as a
function of the response byte stream offered by the port: encode the
request (fixing the request header), run the serial receive path, parse the
response header out of the reassembled `header || body` region (the code
`.unwrap()`s this parse, so its failure is a panic), and check `seq`, op
polarity and `group` against the request.  The CBOR decoding of the body is
kept abstract: `ok` returns the raw body bytes. -/
def serialTransceive (linelength : Nat) (op : NmpOp) (group : NmpGroup)
    (id : Nat) (body : List Nat) (seqId : Nat) (responseStream : List Nat) :
    TransOut :=
  let requestHdr := (encodeRequest linelength op group id body seqId).2
  match recvFrame responseStream with
  | .ok data =>
    match NmpHdr.deserialize data with
    | .ok responseHdr =>
      if responseHdr.seq ≠ requestHdr.seq then .errWrongResponse
      else
        match expectedOpType requestHdr.op with
        | none => .errBadOp
        | some expected =>
          if responseHdr.op ≠ expected ∨ responseHdr.group ≠ requestHdr.group then
            .errWrongResponse
          else .ok responseHdr (data.drop 8)
    | _ => .panic
  | .err => .errOther
  | .panic => .panic

/-- The body of a UDP response: the tail after the 8 header bytes is
materialized as an empty CBOR map when empty, otherwise handed to
`serde_cbor::from_slice` (kept abstract as the raw bytes). -/
inductive UdpBody
  | emptyMap
  | parsed (bytes : List Nat)
deriving DecidableEq, Repr

/-- Result of `UdpTransport::transceive`. -/
inductive UdpTransOut
  | ok (h : NmpHdr) (body : UdpBody)
  | errShort
  | errDecode
  | errWrongResponse
  | errBadOp
deriving DecidableEq, Repr

/-- `UdpTransport::transceive` (src/transfer.rs lines 298-369) as a function
of the received datagram: reject datagrams shorter than 8 bytes, decode the
SMP v2 header, check `seq` against the sequence just drawn, check op
polarity and `group`, and parse the tail (empty tail becomes an empty CBOR
map). -/
def udpTransceive (op : NmpOp) (group : NmpGroup) (_id : Nat)
    (_body : List Nat) (seqId : Nat) (datagram : List Nat) : UdpTransOut :=
  if datagram.length < 8 then .errShort
  else
    match udpDecodeHeader datagram with
    | .ok responseHdr =>
      if responseHdr.seq ≠ seqId then .errWrongResponse
      else
        match expectedOpType op with
        | none => .errBadOp
        | some expected =>
          if responseHdr.op ≠ expected ∨ responseHdr.group ≠ group then
            .errWrongResponse
          else
            .ok responseHdr
              (match datagram.drop 8 with
               | [] => .emptyMap
               | bs => .parsed bs)
    | _ => .errDecode

/-- Structural model of `serde_cbor::Value` (the variants this client
touches; `Float` and `Tag` are omitted as no claim exercises them: the
non-integer values used below are `Text`/`Bytes`/`Null`). -/
inductive CborValue
  | Null
  | Bool (b : Bool)
  | Integer (i : Int)
  | Bytes (bs : List Nat)
  | Text (s : String)
  | Array (vs : List CborValue)
  | Map (entries : List (CborValue × CborValue))

/-- Rust's truncating `as i32` cast on a `serde_cbor` integer (`i128`). -/
def i32cast (i : Int) : Int :=
  (i + 2 ^ 31) % 2 ^ 32 - 2 ^ 31

/-- The entry scan inside `get_rc`: return the first entry whose key is the
text `"rc"` and whose value is an integer (cast `as i32`); entries whose key
is `"rc"` but whose value is not an integer are skipped, like the Rust
`if let` chain. -/
def getRcEntries : List (CborValue × CborValue) → Option Int
  | [] => none
  | (.Text s, .Integer i) :: rest =>
    if s = "rc" then some (i32cast i) else getRcEntries rest
  | _ :: rest => getRcEntries rest

/-- `get_rc` (duplicated in src/fs.rs, src/os.rs, src/settings.rs, src/stat.rs):
`Some(rc)` only when the response body is a map holding an integer under the
text key `"rc"`; `None` for a non-map body or a non-integer `"rc"` value. -/
def get_rc (v : CborValue) : Option Int :=
  match v with
  | .Map entries => getRcEntries entries
  | _ => none

/-- The rc gate used by the adapters:
`if let Some(rc) = get_rc(..) { if rc != 0 { bail!(..) } }`.
`some rc` means the adapter bails with the device error `rc`. -/
def rcGate (v : CborValue) : Option Int :=
  match get_rc v with
  | some rc => if rc ≠ 0 then some rc else none
  | none => none

/-- First value stored under the text key `key` in a CBOR map's entries
(models field lookup during `serde_cbor::value::from_value`; device maps
have unique text keys). -/
def lookupTextKey (entries : List (CborValue × CborValue)) (key : String) :
    Option CborValue :=
  match entries with
  | [] => none
  | (.Text s, v) :: rest => if s = key then some v else lookupTextKey rest key
  | _ :: rest => lookupTextKey rest key

/-- `FsUploadRsp` (src/nmp_hdr.rs): `off: u32` (required), `rc: i32`
(`#[serde(default)]`, 0 when absent). -/
structure FsUploadRspM where
  off : Nat
  rc : Int
deriving DecidableEq, Repr

/-- `serde_cbor::value::from_value::<FsUploadRsp>`: `off` must be present
as an integer in `u32` range; `rc` defaults to 0 when absent but must be an
integer in `i32` range when present; other entries are ignored.  `none` is
the `map_err`-wrapped decode error. -/
def parseFsUploadRsp (v : CborValue) : Option FsUploadRspM :=
  match v with
  | .Map entries =>
    match lookupTextKey entries "off" with
    | some (.Integer i) =>
      if 0 ≤ i ∧ i < 2 ^ 32 then
        match lookupTextKey entries "rc" with
        | none => some ⟨i.toNat, 0⟩
        | some (.Integer r) =>
          if -2 ^ 31 ≤ r ∧ r < 2 ^ 31 then some ⟨i.toNat, r⟩ else none
        | some _ => none
      else none
    | _ => none
  | _ => none

/-- `FsDownloadRsp` (src/nmp_hdr.rs): `off: u32` and `data: bytes` required,
`len` optional, `rc: i32` defaulted. -/
structure FsDownloadRspM where
  off : Nat
  data : List Nat
  len : Option Nat
  rc : Int
deriving DecidableEq, Repr

/-- `serde_cbor::value::from_value::<FsDownloadRsp>`: `off` integer in `u32`
range, `data` a CBOR byte string (`serde_bytes`), optional `len` in `u32`
range, `rc` defaulted to 0 but integer in `i32` range when present. -/
def parseFsDownloadRsp (v : CborValue) : Option FsDownloadRspM :=
  match v with
  | .Map entries =>
    match lookupTextKey entries "off", lookupTextKey entries "data" with
    | some (.Integer i), some (.Bytes bs) =>
      if 0 ≤ i ∧ i < 2 ^ 32 then
        match (match lookupTextKey entries "len" with
               | none => some none
               | some (.Integer l) =>
                 if 0 ≤ l ∧ l < 2 ^ 32 then some (some l.toNat) else none
               | some _ => none : Option (Option Nat)) with
        | none => none
        | some lenOpt =>
          match lookupTextKey entries "rc" with
          | none => some ⟨i.toNat, bs, lenOpt, 0⟩
          | some (.Integer r) =>
            if -2 ^ 31 ≤ r ∧ r < 2 ^ 31 then some ⟨i.toNat, bs, lenOpt, r⟩
            else none
          | some _ => none
      else none
    | _, _ => none
  | _ => none

/-- `ShellExecRsp` (src/nmp_hdr.rs): `o: String` and `rc: i32`, both
`#[serde(default)]`. -/
structure ShellExecRspM where
  o : String
  rc : Int
deriving DecidableEq, Repr

/-- `serde_cbor::value::from_value::<ShellExecRsp>`: both fields defaulted
when absent, type-checked when present. -/
def parseShellExecRsp (v : CborValue) : Option ShellExecRspM :=
  match v with
  | .Map entries =>
    match (match lookupTextKey entries "o" with
           | none => some ""
           | some (.Text s) => some s
           | some _ => none : Option String) with
    | none => none
    | some o =>
      match lookupTextKey entries "rc" with
      | none => some ⟨o, 0⟩
      | some (.Integer r) =>
        if -2 ^ 31 ≤ r ∧ r < 2 ^ 31 then some ⟨o, r⟩ else none
      | some _ => none
  | _ => none

/-- The response handling of `shell_exec` / `shell_exec_transport`
(src/shell.rs lines 63-68 and 87-92): the body is parsed into
`ShellExecRsp` and returned as the success value.  There is no rc gate:
a nonzero `rc` is handed back to the caller inside the response. -/
def shellExecHandle (v : CborValue) : Option ShellExecRspM :=
  parseShellExecRsp v

/-- An `FsUploadReq` as built by the upload loop (src/nmp_hdr.rs /
src/fs.rs): `{name, off, data, len?}`. -/
structure FsUploadReqM where
  name : String
  off : Nat
  data : List Nat
  len : Option Nat
deriving DecidableEq, Repr

/-- The chunk size computed by the upload loop: `mtu`, clamped to the
remaining bytes when `offset + mtu` would pass the end of the file. -/
def uploadChunkSize (mtu offset totalLen : Nat) : Nat :=
  if totalLen < offset + mtu then totalLen - offset else mtu

/-- The request record built by one upload-loop iteration: `len` is filled
(with the total file size) only when `off == 0`. -/
def mkUploadReq (name : String) (fileData : List Nat) (mtu offset : Nat) :
    FsUploadReqM :=
  { name := name
    off := offset
    data := (fileData.drop offset).take (uploadChunkSize mtu offset fileData.length)
    len := if offset = 0 then some fileData.length else none }

/-- Outcome of the upload loop. `outOfResponses` models a device that stops
answering (the transceive would block or time out): it is not a loop exit. -/
inductive UploadOut
  | done (finalOff : Nat)
  | deviceErr (rc : Int)
  | parseErr
  | outOfResponses
deriving DecidableEq, Repr

/-- The upload loop of `upload_transport` (src/fs.rs lines 416-459), driven
by the list of response bodies the device will give: while
`offset < total_len`, build the chunk request, check the response with the
rc gate, parse it as `FsUploadRsp`, and continue from the returned `off`.
Returns the outcome and the trace of requests sent. -/
def uploadLoop (name : String) (fileData : List Nat) (mtu : Nat) :
    List CborValue → Nat → UploadOut × List FsUploadReqM
  | responses, offset =>
    if offset < fileData.length then
      let req := mkUploadReq name fileData mtu offset
      match responses with
      | [] => (.outOfResponses, [req])
      | rsp :: rest =>
        match rcGate rsp with
        | some rc => (.deviceErr rc, [req])
        | none =>
          match parseFsUploadRsp rsp with
          | none => (.parseErr, [req])
          | some r =>
            let p := uploadLoop name fileData mtu rest r.off
            (p.1, req :: p.2)
    else (.done offset, [])

/-- Outcome of one download-loop iteration (src/fs.rs lines 332-385):
either the loop breaks (`finished`), continues at the new offset with the
possibly-learned total length, or fails. -/
inductive DownloadStepOut
  | deviceErr (rc : Int)
  | parseErr
  | finished (chunk : List Nat) (newOff : Nat)
  | continueAt (chunk : List Nat) (newOff : Nat) (newTotal : Option Nat)
deriving DecidableEq, Repr

/-- One iteration of the download loop after `transceive` returned the body
`v`: rc gate, typed parse, total-length latch on the first chunk
(`offset == 0`), cursor update `off + |data|`, and the two loop exits
(cursor past the declared length, or empty `data`). -/
def downloadStep (offset : Nat) (totalLen : Option Nat) (v : CborValue) :
    DownloadStepOut :=
  match rcGate v with
  | some rc => .deviceErr rc
  | none =>
    match parseFsDownloadRsp v with
    | none => .parseErr
    | some r =>
      let totalLen2 :=
        if offset = 0 then
          match r.len with
          | some l => some l
          | none => totalLen
        else totalLen
      let offset2 := r.off + r.data.length
      let doneByLen : Bool :=
        match totalLen2 with
        | some l => decide (l ≤ offset2)
        | none => false
      if doneByLen then .finished r.data offset2
      else if r.data.isEmpty then .finished r.data offset2
      else .continueAt r.data offset2 totalLen2

/-- The successive line payloads the chunking loop cuts the base64 text
into: blocks of `w` bytes, the last one possibly shorter. -/
def b64Lines (w : Nat) (t : List Nat) : List (List Nat) :=
  if hw : w = 0 then []
  else
    if ht : t = [] then []
    else t.take w :: b64Lines w (t.drop w)
termination_by t.length
decreasing_by
  simp only [List.length_drop]
  have : 0 < t.length := List.length_pos.mpr ht
  omega

/-- Render line payloads as the wire stream: `[6, 9]` before the first
payload, `[4, 20]` before every later one, one `0x0A` after each. -/
def renderLines (first : Bool) : List (List Nat) → List Nat
  | [] => []
  | c :: rest => (if first then [6, 9] else [4, 20]) ++ c ++ [10] ++ renderLines false rest

/-! ## Helper lemmas -/

theorem b64DecChar_encChar {n : Nat} (hn : n < 64) :
    b64DecChar (b64EncChar n) = some n := by
  interval_cases n <;> rfl

theorem b64EncChar_ne_pad (n : Nat) : b64EncChar n ≠ 61 := by
  unfold b64EncChar
  split
  · omega
  · split
    · omega
    · split
      · omega
      · split <;> omega

theorem b64EncChar_ne_newline (n : Nat) : b64EncChar n ≠ 10 := by
  unfold b64EncChar
  split
  · omega
  · split
    · omega
    · split
      · omega
      · split <;> omega

theorem b64Encode_ne_newline (bs : List Nat) : ∀ c ∈ b64Encode bs, c ≠ 10 := by
  induction bs using b64Encode.induct with
  | case1 => simp [b64Encode]
  | case2 a =>
    intro c hc
    simp only [b64Encode, List.mem_cons, List.not_mem_nil, or_false] at hc
    rcases hc with rfl | rfl | rfl | rfl
    · exact b64EncChar_ne_newline _
    · exact b64EncChar_ne_newline _
    · decide
    · decide
  | case3 a b =>
    intro c hc
    simp only [b64Encode, List.mem_cons, List.not_mem_nil, or_false] at hc
    rcases hc with rfl | rfl | rfl | rfl
    · exact b64EncChar_ne_newline _
    · exact b64EncChar_ne_newline _
    · exact b64EncChar_ne_newline _
    · decide
  | case4 a b c rest ih =>
    simp only [b64Encode, List.mem_cons]
    rintro x (rfl | rfl | rfl | rfl | hx)
    · exact b64EncChar_ne_newline _
    · exact b64EncChar_ne_newline _
    · exact b64EncChar_ne_newline _
    · exact b64EncChar_ne_newline _
    · exact ih x hx

theorem b64Decode_group_step {a b c : Nat} (ha : a < 256) (hb : b < 256)
    (hc : c < 256) (t : List Nat) :
    b64Decode (b64EncChar (a / 4) :: b64EncChar (a % 4 * 16 + b / 16) ::
      b64EncChar (b % 16 * 4 + c / 64) :: b64EncChar (c % 64) :: t) =
    match b64Decode t with
    | some ds => some (a :: b :: c :: ds)
    | none => none := by
  have h1 : a / 4 < 64 := by omega
  have h2 : a % 4 * 16 + b / 16 < 64 := by omega
  have h3 : b % 16 * 4 + c / 64 < 64 := by omega
  have h4 : c % 64 < 64 := by omega
  simp only [b64Decode, b64DecChar_encChar h1, b64DecChar_encChar h2,
    if_neg (b64EncChar_ne_pad _), b64DecChar_encChar h3, b64DecChar_encChar h4]
  have e1 : a / 4 * 4 + (a % 4 * 16 + b / 16) / 16 = a := by omega
  have e2 : (a % 4 * 16 + b / 16) % 16 * 16 + (b % 16 * 4 + c / 64) / 4 = b := by
    omega
  have e3 : (b % 16 * 4 + c / 64) % 4 * 64 + c % 64 = c := by omega
  rw [e1, e2, e3]

theorem b64Decode_encode (bs : List Nat) (hbs : ∀ x ∈ bs, x < 256) :
    b64Decode (b64Encode bs) = some bs := by
  induction bs using b64Encode.induct with
  | case1 => rfl
  | case2 a =>
    have ha : a < 256 := hbs a (by simp)
    have h1 : a / 4 < 64 := by omega
    have h2 : a % 4 * 16 < 64 := by omega
    have hm : a % 4 * 16 % 16 = 0 := by omega
    have e : a / 4 * 4 + a % 4 * 16 / 16 = a := by omega
    simp [b64Encode, b64Decode, b64DecChar_encChar h1, b64DecChar_encChar h2, hm, e]
    omega
  | case3 a b =>
    have ha : a < 256 := hbs a (by simp)
    have hb : b < 256 := hbs b (by simp)
    have h1 : a / 4 < 64 := by omega
    have h2 : a % 4 * 16 + b / 16 < 64 := by omega
    have h3 : b % 16 * 4 < 64 := by omega
    have hm : b % 16 * 4 % 4 = 0 := by omega
    have e1 : a / 4 * 4 + (a % 4 * 16 + b / 16) / 16 = a := by omega
    have e2 : (a % 4 * 16 + b / 16) % 16 * 16 + b % 16 * 4 / 4 = b := by omega
    simp [b64Encode, b64Decode, b64DecChar_encChar h1, b64DecChar_encChar h2,
      if_neg (b64EncChar_ne_pad _), b64DecChar_encChar h3, hm, e1, e2]
    omega
  | case4 a b c rest ih =>
    have ha : a < 256 := hbs a (by simp)
    have hb : b < 256 := hbs b (by simp)
    have hc : c < 256 := hbs c (by simp)
    have hrest : ∀ x ∈ rest, x < 256 := fun x hx => hbs x (by simp [hx])
    simp only [b64Encode]
    rw [b64Decode_group_step ha hb hc]
    rw [ih hrest]

theorem b64Encode_length (bs : List Nat) :
    (b64Encode bs).length = 4 * ((bs.length + 2) / 3) := by
  induction bs using b64Encode.induct with
  | case1 => rfl
  | case2 a => simp [b64Encode]
  | case3 a b => simp [b64Encode]
  | case4 a b c rest ih =>
    simp only [b64Encode, List.length_cons, ih]
    omega

theorem b64Decode_encode_take (bs : List Nat) (hbs : ∀ x ∈ bs, x < 256) :
    ∀ k, 3 * k ≤ bs.length →
      b64Decode ((b64Encode bs).take (4 * k)) = some (bs.take (3 * k)) := by
  induction bs using b64Encode.induct with
  | case1 =>
    intro k hk
    simp only [List.length_nil] at hk
    have hk0 : k = 0 := by omega
    subst hk0
    rfl
  | case2 a =>
    intro k hk
    simp only [List.length_cons, List.length_nil] at hk
    have hk0 : k = 0 := by omega
    subst hk0
    rfl
  | case3 a b =>
    intro k hk
    simp only [List.length_cons, List.length_nil] at hk
    have hk0 : k = 0 := by omega
    subst hk0
    rfl
  | case4 a b c rest ih =>
    intro k hk
    match k with
    | 0 => rfl
    | k + 1 =>
      have ha : a < 256 := hbs a (by simp)
      have hb : b < 256 := hbs b (by simp)
      have hc : c < 256 := hbs c (by simp)
      have hrest : ∀ x ∈ rest, x < 256 := fun x hx => hbs x (by simp [hx])
      simp only [List.length_cons] at hk
      have hk' : 3 * k ≤ rest.length := by omega
      rw [show 4 * (k + 1) = 4 * k + 1 + 1 + 1 + 1 by omega,
          show 3 * (k + 1) = 3 * k + 1 + 1 + 1 by omega]
      simp only [b64Encode, List.take_succ_cons]
      rw [b64Decode_group_step ha hb hc]
      rw [ih hrest k hk']

theorem crcRound_lt (c : Nat) : crcRound c < 65536 := by
  unfold crcRound
  split <;> exact Nat.mod_lt _ (by omega)

theorem crc8Rounds_lt (c : Nat) : crc8Rounds c < 65536 := by
  unfold crc8Rounds
  exact crcRound_lt _

theorem crcFoldLt (l : List Nat) :
    ∀ c, c < 65536 → l.foldl (fun c b => crc8Rounds (c ^^^ b % 256 * 256)) c < 65536 := by
  induction l with
  | nil =>
    intro c h
    simpa using h
  | cons b bs ih =>
    intro c h
    rw [List.foldl_cons]
    exact ih _ (crc8Rounds_lt _)

theorem crc16Xmodem_lt (data : List Nat) : crc16Xmodem data < 65536 :=
  crcFoldLt data 0 (by omega)

set_option maxRecDepth 4000 in
/-- The spec's CRC16/XMODEM test vector: the CRC of `"123456789"` is 0x31C3. -/
theorem crc16Xmodem_check_value :
    crc16Xmodem [49, 50, 51, 52, 53, 54, 55, 56, 57] = 0x31C3 := by
  rfl

theorem chunkLoop_eq_renderLines (w : Nat) (t : List Nat) :
    ∀ first, chunkLoop w first t = renderLines first (b64Lines w t) := by
  induction t using b64Lines.induct w with
  | case1 x hw =>
    intro first
    subst hw
    rw [chunkLoop, b64Lines]
    simp [renderLines]
  | case2 hw =>
    intro first
    rw [chunkLoop, b64Lines]
    simp [dif_neg hw, renderLines]
  | case3 x hw hx ih =>
    intro first
    rw [chunkLoop, b64Lines]
    simp only [dif_neg hw, dif_neg hx]
    rw [renderLines, ih false]

theorem b64Lines_join (w : Nat) (t : List Nat) (hw : w ≠ 0) :
    (b64Lines w t).flatten = t := by
  induction t using b64Lines.induct w with
  | case1 x hw2 => exact absurd hw2 hw
  | case2 hw2 =>
    rw [b64Lines]
    simp [dif_neg hw2]
  | case3 x hw2 hx ih =>
    rw [b64Lines]
    simp only [dif_neg hw2, dif_neg hx]
    rw [show ∀ (c : List Nat) (L : List (List Nat)), (c :: L).flatten = c ++ L.flatten
          from fun c L => rfl]
    rw [ih, List.take_append_drop]

theorem b64Lines_mem (w : Nat) (t : List Nat) :
    ∀ c ∈ b64Lines w t, c.length ≤ w ∧ c ≠ [] ∧ ∀ x ∈ c, x ∈ t := by
  induction t using b64Lines.induct w with
  | case1 x hw =>
    rw [b64Lines]
    simp [dif_pos hw]
  | case2 hw =>
    rw [b64Lines]
    simp [dif_neg hw]
  | case3 x hw hx ih =>
    rw [b64Lines]
    simp only [dif_neg hw, dif_neg hx, List.mem_cons]
    rintro c (rfl | hc)
    · refine ⟨List.length_take_le _ _, ?_, ?_⟩
      · simp only [ne_eq, List.take_eq_nil_iff, not_or]
        exact ⟨hw, hx⟩
      · intro y hy
        exact List.mem_of_mem_take hy
    · obtain ⟨h1, h2, h3⟩ := ih c hc
      exact ⟨h1, h2, fun y hy => List.mem_of_mem_drop (h3 y hy)⟩

theorem dropWhile_append_all (f : Nat → Bool) (p l : List Nat)
    (hp : ∀ x ∈ p, f x = true) : (p ++ l).dropWhile f = l.dropWhile f := by
  induction p with
  | nil => rfl
  | cons a as ih =>
    have ha := hp a (by simp)
    simp only [List.cons_append, List.dropWhile_cons, ha, if_true]
    exact ih (fun x hx => hp x (by simp [hx]))

theorem takeWhile_append_all (f : Nat → Bool) (p l : List Nat)
    (hp : ∀ x ∈ p, f x = true) : (p ++ l).takeWhile f = p ++ l.takeWhile f := by
  induction p with
  | nil => rfl
  | cons a as ih =>
    have ha := hp a (by simp)
    simp only [List.cons_append, List.takeWhile_cons, ha, if_true]
    rw [ih (fun x hx => hp x (by simp [hx]))]

theorem recvLoop_cons_step (m1 m2 : Nat) (payload tail2 acc : List Nat)
    (bytesRead el : Nat)
    (hmk : if bytesRead = 0 then m1 = 6 ∧ m2 = 9 else m1 = 4 ∧ m2 = 20)
    (hpl : ∀ x ∈ payload, (x != 10) = true) :
    recvLoop (m1 :: m2 :: (payload ++ 10 :: tail2)) acc bytesRead el =
      (match b64Decode (acc ++ payload) with
       | none => .err
       | some decoded =>
         if el = 0 ∧ decoded.length < 2 then .panic
         else
           if (if el = 0 then
                 if 0 < decoded.getD 0 0 * 256 + decoded.getD 1 0 then
                   decoded.getD 0 0 * 256 + decoded.getD 1 0
                 else 0
               else el) ≤ decoded.length - 2 then .ok (acc ++ payload)
           else
             recvLoop tail2 (acc ++ payload) (bytesRead + payload.length)
               (if el = 0 then
                  if 0 < decoded.getD 0 0 * 256 + decoded.getD 1 0 then
                    decoded.getD 0 0 * 256 + decoded.getD 1 0
                  else 0
                else el)) := by
  have hDW : (payload ++ 10 :: tail2).dropWhile (fun b => b != 10) = 10 :: tail2 := by
    rw [dropWhile_append_all _ _ _ hpl]
    simp [List.dropWhile_cons]
  have hTW : (payload ++ 10 :: tail2).takeWhile (fun b => b != 10) = payload := by
    rw [takeWhile_append_all _ _ _ hpl]
    simp [List.takeWhile_cons]
  conv_lhs => rw [recvLoop]
  simp only [hDW, hTW, List.tail_cons, if_pos hmk]
  rw [dif_neg (by simp : ¬ (10 :: tail2 : List Nat) = [])]

theorem recvLoop_sim (w : Nat) (hw4 : 4 ≤ w) (hwmod : w % 4 = 0)
    (d0 d1 : Nat) (bufTail : List Nat)
    (hbytes : ∀ x ∈ d0 :: d1 :: bufTail, x < 256)
    (hE : d0 * 256 + d1 = (d0 :: d1 :: bufTail).length - 2)
    (hlen : 2 ≤ bufTail.length) :
    ∀ k, w * k < (b64Encode (d0 :: d1 :: bufTail)).length →
      recvLoop (chunkLoop w (k == 0) ((b64Encode (d0 :: d1 :: bufTail)).drop (w * k)))
        ((b64Encode (d0 :: d1 :: bufTail)).take (w * k)) (w * k)
        (if k = 0 then 0 else d0 * 256 + d1)
      = .ok (b64Encode (d0 :: d1 :: bufTail)) := by
  have hL : (b64Encode (d0 :: d1 :: bufTail)).length =
      4 * (((d0 :: d1 :: bufTail).length + 2) / 3) := b64Encode_length _
  have hBL : (d0 :: d1 :: bufTail).length = bufTail.length + 2 := by simp
  have hEpos : 0 < d0 * 256 + d1 := by omega
  suffices H : ∀ n k, (b64Encode (d0 :: d1 :: bufTail)).length - w * k ≤ n →
      w * k < (b64Encode (d0 :: d1 :: bufTail)).length →
      recvLoop (chunkLoop w (k == 0) ((b64Encode (d0 :: d1 :: bufTail)).drop (w * k)))
        ((b64Encode (d0 :: d1 :: bufTail)).take (w * k)) (w * k)
        (if k = 0 then 0 else d0 * 256 + d1)
      = .ok (b64Encode (d0 :: d1 :: bufTail)) by
    intro k hk
    exact H _ k le_rfl hk
  intro n
  induction n with
  | zero =>
    intro k hle hk
    omega
  | succ n ih =>
    intro k hle hk
    have hrem : ¬ ((b64Encode (d0 :: d1 :: bufTail)).drop (w * k)) = [] := by
      simp only [List.drop_eq_nil_iff]
      omega
    rw [chunkLoop]
    simp only [dif_neg (by omega : ¬ w = 0), dif_neg hrem]
    have hpl : ∀ x ∈ ((b64Encode (d0 :: d1 :: bufTail)).drop (w * k)).take w,
        (x != 10) = true := by
      intro x hx
      have hxt : x ∈ b64Encode (d0 :: d1 :: bufTail) :=
        List.mem_of_mem_drop (List.mem_of_mem_take hx)
      simpa using b64Encode_ne_newline _ x hxt
    have hshape : (if (k == 0) = true then ([6, 9] : List Nat) else [4, 20]) ++
        ((b64Encode (d0 :: d1 :: bufTail)).drop (w * k)).take w ++ [10] ++
        chunkLoop w false (((b64Encode (d0 :: d1 :: bufTail)).drop (w * k)).drop w) =
        (if k = 0 then 6 else 4) :: (if k = 0 then 9 else 20) ::
          (((b64Encode (d0 :: d1 :: bufTail)).drop (w * k)).take w ++ 10 ::
            chunkLoop w false (((b64Encode (d0 :: d1 :: bufTail)).drop (w * k)).drop w)) := by
      by_cases hk0 : k = 0 <;> simp [hk0]
    rw [hshape]
    rw [recvLoop_cons_step _ _ _ _ _ _ _
      (by
        by_cases hk0 : k = 0
        · subst hk0
          simp
        · have hwk : ¬ w * k = 0 := by
            rcases Nat.eq_zero_or_pos k with h | h
            · exact absurd h hk0
            · have := Nat.mul_pos (show 0 < w by omega) h
              omega
          simp [hwk, hk0])
      hpl]
    rw [← List.take_add]
    rw [show w * k + w = w * (k + 1) by ring]
    by_cases hdone : (b64Encode (d0 :: d1 :: bufTail)).length ≤ w * (k + 1)
    · -- final chunk: the whole text is accumulated
      rw [List.take_of_length_le hdone]
      rw [b64Decode_encode _ hbytes]
      have hg0 : (d0 :: d1 :: bufTail).getD 0 0 = d0 := rfl
      have hg1 : (d0 :: d1 :: bufTail).getD 1 0 = d1 := rfl
      simp only [hg0, hg1]
      rw [if_neg (by
        rintro ⟨-, h2⟩
        simp only [List.length_cons] at h2
        omega)]
      have hel2 : (if (if k = 0 then 0 else d0 * 256 + d1) = 0 then
            if 0 < d0 * 256 + d1 then d0 * 256 + d1 else 0
          else (if k = 0 then 0 else d0 * 256 + d1)) = d0 * 256 + d1 := by
        by_cases hk0 : k = 0
        · rw [if_pos (by simp [hk0]), if_pos hEpos]
        · rw [if_neg (by simp only [if_neg hk0]; omega), if_neg hk0]
      rw [hel2]
      rw [if_pos (by simp only [List.length_cons]; omega :
        d0 * 256 + d1 ≤ (d0 :: d1 :: bufTail).length - 2)]
    · -- an intermediate chunk: a 4-aligned proper base64 text prefix
      push_neg at hdone
      have hwk1 : w * (k + 1) = w * k + w := by ring
      have hm4 : w * (k + 1) = 4 * (w / 4 * (k + 1)) := by
        have : w = 4 * (w / 4) := by omega
        calc w * (k + 1) = 4 * (w / 4) * (k + 1) := by rw [← this]
        _ = 4 * (w / 4 * (k + 1)) := by ring
      -- keep the chunk-group count atomic for the arithmetic below
      obtain ⟨m, hm⟩ : ∃ m, m = w / 4 * (k + 1) := ⟨_, rfl⟩
      rw [← hm] at hm4
      have hdiv3 : 3 * (((d0 :: d1 :: bufTail).length + 2) / 3) ≤
          (d0 :: d1 :: bufTail).length + 2 ∧
          (d0 :: d1 :: bufTail).length + 2 < 3 * (((d0 :: d1 :: bufTail).length + 2) / 3) + 3 := by
        omega
      have hmc : m < ((d0 :: d1 :: bufTail).length + 2) / 3 := by
        rw [hm4, hL] at hdone
        omega
      have h3m : 3 * m ≤ (d0 :: d1 :: bufTail).length := by omega
      have h3mlt : 3 * m < (d0 :: d1 :: bufTail).length := by omega
      have hm1 : 1 ≤ m := by
        rw [hm]
        exact Nat.mul_pos (by omega) (by omega)
      rw [hm4, b64Decode_encode_take _ hbytes _ h3m]
      have htake_shape : (d0 :: d1 :: bufTail).take (3 * m) =
          d0 :: d1 :: bufTail.take (3 * m - 2) := by
        rw [show 3 * m = (3 * m - 2) + 1 + 1 by omega]
        simp [List.take_succ_cons]
      rw [htake_shape]
      have hg0 : (d0 :: d1 :: bufTail.take (3 * m - 2)).getD 0 0 = d0 := rfl
      have hg1 : (d0 :: d1 :: bufTail.take (3 * m - 2)).getD 1 0 = d1 := rfl
      simp only [hg0, hg1]
      have hlen_take : (d0 :: d1 :: bufTail.take (3 * m - 2)).length = 3 * m := by
        simp only [List.length_cons, List.length_take]
        omega
      rw [if_neg (by
        rintro ⟨-, h2⟩
        rw [hlen_take] at h2
        omega)]
      have hel2 : (if (if k = 0 then 0 else d0 * 256 + d1) = 0 then
            if 0 < d0 * 256 + d1 then d0 * 256 + d1 else 0
          else (if k = 0 then 0 else d0 * 256 + d1)) = d0 * 256 + d1 := by
        by_cases hk0 : k = 0
        · rw [if_pos (by simp [hk0]), if_pos hEpos]
        · rw [if_neg (by simp only [if_neg hk0]; omega), if_neg hk0]
      rw [hel2, hlen_take]
      rw [if_neg (by omega : ¬ d0 * 256 + d1 ≤ 3 * m - 2)]
      have hpayload_len :
          (((b64Encode (d0 :: d1 :: bufTail)).drop (w * k)).take w).length = w := by
        simp only [List.length_take, List.length_drop]
        omega
      rw [hpayload_len]
      have hdrops : ((b64Encode (d0 :: d1 :: bufTail)).drop (w * k)).drop w =
          (b64Encode (d0 :: d1 :: bufTail)).drop (w * (k + 1)) := by
        rw [List.drop_drop, show w * k + w = w * (k + 1) from hwk1.symm]
      rw [hdrops]
      rw [show w * k + w = w * (k + 1) by ring]
      rw [← hm4]
      have hih := ih (k + 1) (by omega) hdone
      simpa using hih

theorem u16beBytes_append (n : Nat) (l : List Nat) :
    u16beBytes n ++ l = n / 256 % 256 :: n % 256 :: l := rfl

theorem processFrame_frame (serialized : List Nat)
    (hs : ∀ x ∈ serialized, x < 256) (hslen : 8 ≤ serialized.length)
    (hsmall : serialized.length + 2 < 65536) :
    processFrame (b64Encode (u16beBytes (serialized.length + 2) ++
      (serialized ++ u16beBytes (crc16Xmodem serialized)))) = .ok serialized := by
  have hcrc := crc16Xmodem_lt serialized
  set n := serialized.length + 2 with hn
  set crc := crc16Xmodem serialized with hcrcdef
  have hbytes : ∀ x ∈ u16beBytes n ++ (serialized ++ u16beBytes crc), x < 256 := by
    intro x hx
    rcases List.mem_append.mp hx with h1 | h2
    · simp only [u16beBytes, List.mem_cons, List.not_mem_nil, or_false] at h1
      rcases h1 with rfl | rfl <;> exact Nat.mod_lt _ (by omega)
    · rcases List.mem_append.mp h2 with h3 | h4
      · exact hs x h3
      · simp only [u16beBytes, List.mem_cons, List.not_mem_nil, or_false] at h4
        rcases h4 with rfl | rfl <;> exact Nat.mod_lt _ (by omega)
  rw [processFrame]
  rw [b64Decode_encode _ hbytes]
  have hlenbuf : (u16beBytes n ++ (serialized ++ u16beBytes crc)).length = n + 2 := by
    simp [u16beBytes]
  have hg0 : (u16beBytes n ++ (serialized ++ u16beBytes crc)).getD 0 0 = n / 256 % 256 := rfl
  have hg1 : (u16beBytes n ++ (serialized ++ u16beBytes crc)).getD 1 0 = n % 256 := rfl
  simp only [hg0, hg1, hlenbuf]
  rw [if_neg (by omega)]
  have hlenval : n / 256 % 256 * 256 + n % 256 = n := by omega
  rw [hlenval]
  rw [if_neg (by omega)]
  rw [if_neg (by omega : ¬ n + 2 < 4)]
  have hdata : ((u16beBytes n ++ (serialized ++ u16beBytes crc)).drop 2).take (n + 2 - 4) =
      serialized := by
    rw [u16beBytes_append]
    simp only [List.drop_succ_cons, List.drop_zero]
    rw [show n + 2 - 4 = serialized.length by omega]
    exact List.take_left serialized _
  have hfront : u16beBytes n ++ (serialized ++ u16beBytes crc) =
      (n / 256 % 256 :: n % 256 :: serialized) ++ [crc / 256 % 256, crc % 256] := by
    simp [u16beBytes]
  have hfrontlen : (n / 256 % 256 :: n % 256 :: serialized).length = n := by
    simp only [List.length_cons]
  have hgc0 : (u16beBytes n ++ (serialized ++ u16beBytes crc)).getD (n + 2 - 2) 0 =
      crc / 256 % 256 := by
    rw [hfront, show n + 2 - 2 = n by omega]
    rw [List.getD_append_right _ _ _ _ (by omega), hfrontlen]
    simp
  have hgc1 : (u16beBytes n ++ (serialized ++ u16beBytes crc)).getD (n + 2 - 1) 0 =
      crc % 256 := by
    rw [hfront, show n + 2 - 1 = n + 1 by omega]
    rw [List.getD_append_right _ _ _ _ (by omega), hfrontlen]
    rw [show n + 1 - n = 1 by omega]
    simp
  rw [hgc0, hgc1, hdata]
  rw [if_neg (by
    push_neg
    omega)]

theorem recvFrame_eq_processFrame (stream text : List Nat)
    (h : recvLoop stream [] 0 0 = .ok text) :
    recvFrame stream = processFrame text := by
  simp only [recvFrame, h]

theorem serialize_mem_lt (h : NmpHdr) : ∀ x ∈ h.serialize, x < 256 := by
  intro x hx
  have hop : h.op.toU8 < 256 := by cases h.op <;> decide
  simp only [NmpHdr.serialize, List.mem_cons, List.not_mem_nil, or_false] at hx
  rcases hx with rfl | rfl | rfl | rfl | rfl | rfl | rfl | rfl <;>
    first
    | exact hop
    | exact Nat.mod_lt _ (by omega)

theorem serialize_length (h : NmpHdr) : h.serialize.length = 8 := rfl

theorem recvFrame_encodeRequest (linelength : Nat) (op : NmpOp) (group : NmpGroup)
    (id : Nat) (body : List Nat) (seqId : Nat)
    (hll : 8 ≤ linelength) (hmod : linelength % 4 = 0)
    (hbody : ∀ x ∈ body, x < 256) (hblen : body.length ≤ 65525) :
    recvFrame (encodeRequest linelength op group id body seqId).1 =
      .ok ((encodeRequest linelength op group id body seqId).2.serialize ++ body) := by
  set hdr : NmpHdr :=
    { op := op, flags := 0, len := body.length % 65536, group := group,
      seq := seqId, id := id } with hhdr
  have hdr2 : (encodeRequest linelength op group id body seqId).2 = hdr := rfl
  set serialized := hdr.serialize ++ body with hser
  set crc := crc16Xmodem serialized with hcrc
  have hs : ∀ x ∈ serialized, x < 256 := by
    intro x hx
    rcases List.mem_append.mp hx with h1 | h2
    · exact serialize_mem_lt hdr x h1
    · exact hbody x h2
  have hslen : serialized.length = 8 + body.length := by
    rw [hser, List.length_append, serialize_length]
  have hwcl : (serialized ++ u16beBytes crc).length = serialized.length + 2 := by
    simp [u16beBytes]
  have hstream : (encodeRequest linelength op group id body seqId).1 =
      chunkLoop (linelength - 4) true
        (b64Encode (u16beBytes (serialized.length + 2) ++ (serialized ++ u16beBytes crc))) := by
    unfold encodeRequest
    simp only [← hhdr, ← hser, ← hcrc, hwcl]
  rw [hstream, hdr2]
  -- apply the loop simulation at the cons form of the framed buffer
  set n := serialized.length + 2 with hn
  have hcons : u16beBytes n ++ (serialized ++ u16beBytes crc) =
      n / 256 % 256 :: n % 256 :: (serialized ++ u16beBytes crc) := rfl
  have hcrclt := crc16Xmodem_lt serialized
  have hbytes : ∀ x ∈ n / 256 % 256 :: n % 256 :: (serialized ++ u16beBytes crc),
      x < 256 := by
    intro x hx
    simp only [List.mem_cons] at hx
    rcases hx with rfl | rfl | hx2
    · exact Nat.mod_lt _ (by omega)
    · exact Nat.mod_lt _ (by omega)
    · rcases List.mem_append.mp hx2 with h3 | h4
      · exact hs x h3
      · simp only [u16beBytes, List.mem_cons, List.not_mem_nil, or_false] at h4
        rcases h4 with rfl | rfl <;> exact Nat.mod_lt _ (by omega)
  have hE : n / 256 % 256 * 256 + n % 256 =
      (n / 256 % 256 :: n % 256 :: (serialized ++ u16beBytes crc)).length - 2 := by
    simp only [List.length_cons, hwcl]
    omega
  have hlen2 : 2 ≤ (serialized ++ u16beBytes crc).length := by omega
  have h0len : (linelength - 4) * 0 <
      (b64Encode (n / 256 % 256 :: n % 256 :: (serialized ++ u16beBytes crc))).length := by
    rw [b64Encode_length]
    simp only [List.length_cons]
    omega
  have hsim := recvLoop_sim (linelength - 4) (by omega) (by omega)
    (n / 256 % 256) (n % 256) (serialized ++ u16beBytes crc) hbytes hE hlen2 0 h0len
  have hsim2 : recvLoop
      (chunkLoop (linelength - 4) true
        (b64Encode (n / 256 % 256 :: n % 256 :: (serialized ++ u16beBytes crc)))) [] 0 0 =
      .ok (b64Encode (n / 256 % 256 :: n % 256 :: (serialized ++ u16beBytes crc))) := by
    simpa using hsim
  rw [hcons]
  rw [recvFrame_eq_processFrame _ _ hsim2]
  rw [← hcons]
  exact processFrame_frame serialized hs (by omega) (by omega)

theorem seqStateAfter_closed (s0 k : Nat) : seqStateAfter s0 k = (s0 + k) % 256 := by
  induction k with
  | zero => simp [seqStateAfter]
  | succ k ih =>
    rw [seqStateAfter, ih]
    omega

theorem fromU8_toU8 (op : NmpOp) : NmpOp.fromU8 op.toU8 = some op := by
  cases op <;> rfl

theorem fromU16_toU16_recombine (g : NmpGroup) :
    NmpGroup.fromU16 (g.toU16 / 256 % 256 * 256 + g.toU16 % 256) = some g := by
  cases g <;> rfl

theorem udp_byte0_mask (op : NmpOp) :
    NmpOp.fromU8 (((1 % 4) * 8 ||| op.toU8 % 8) &&& 7) = some op := by
  cases op <;> rfl

/-! ## Claims -/

/-- C3: the spec says serial-form header deserialization rejects unknown
`op` and `group` enumerants with a decode error, and that is clearly the
intent (the function returns `Result` and the UDP decoder `bail!`s on the
same condition), but `NmpHdr::deserialize` calls `.unwrap()` on
`num::FromPrimitive::from_u8`/`from_u16`, so an unknown `op` byte (e.g. 4)
or group (e.g. 10) makes it panic instead of returning an error.  This
theorem evaluates the embedded code at both failing inputs. -/
theorem C3_deserialize_unknown_enum_panics :
    NmpHdr.deserialize [4, 0, 0, 0, 0, 0, 0, 0] = DeserOut.panic ∧
    NmpHdr.deserialize [0, 0, 0, 0, 0, 10, 0, 0] = DeserOut.panic := by
  constructor <;> rfl

/-- C4: header codec round-trip.  For every header with a valid `op` and
`group`, `flags = 0`, and `u16`/`u8`-ranged `len`, `seq`, `id`: decoding the
serial-form serialization returns the identical header, and decoding the
UDP v2 encoding (byte 0 = `version 1` in bits 3-4 and `op` in bits 0-2)
returns the same header with `flags = 0`. -/
theorem C4_header_roundtrip (h : NmpHdr) (hf : h.flags = 0) (hlen : h.len < 65536)
    (hseq : h.seq < 256) (hid : h.id < 256) :
    NmpHdr.deserialize h.serialize = DeserOut.ok h ∧
    udpDecodeHeader (udpEncodeHeader h.op h.group h.id h.len h.seq) =
      UdpDecodeOut.ok ⟨h.op, 0, h.len, h.group, h.seq, h.id⟩ := by
  obtain ⟨op, flags, len, group, seq, id⟩ := h
  simp only at hf hlen hseq hid
  subst hf
  constructor
  · simp only [NmpHdr.serialize, NmpHdr.deserialize]
    rw [fromU8_toU8, fromU16_toU16_recombine]
    have e1 : len / 256 % 256 * 256 + len % 256 = len := by omega
    have e2 : (0 : Nat) % 256 = 0 := by omega
    have e3 : seq % 256 = seq := by omega
    have e4 : id % 256 = id := by omega
    rw [e1, e2, e3, e4]
  · simp only [udpEncodeHeader, udpDecodeHeader]
    rw [udp_byte0_mask, fromU16_toU16_recombine]
    have e1 : len / 256 % 256 * 256 + len % 256 = len := by omega
    have e3 : seq % 256 = seq := by omega
    have e4 : id % 256 = id := by omega
    rw [e1, e3, e4]

/-- Witness for C4 at a concrete header. -/
theorem C4_header_roundtrip_witness :
    NmpHdr.deserialize (NmpHdr.serialize ⟨NmpOp.Write, 0, 300, NmpGroup.Fs, 5, 1⟩) =
      DeserOut.ok ⟨NmpOp.Write, 0, 300, NmpGroup.Fs, 5, 1⟩ ∧
    udpDecodeHeader (udpEncodeHeader NmpOp.Write NmpGroup.Fs 1 300 5) =
      UdpDecodeOut.ok ⟨NmpOp.Write, 0, 300, NmpGroup.Fs, 5, 1⟩ :=
  C4_header_roundtrip ⟨NmpOp.Write, 0, 300, NmpGroup.Fs, 5, 1⟩ rfl (by decide)
    (by decide) (by decide)

/-- C6: the process-wide sequence allocator, modelled from any initial
random byte `s0`: any `N ≤ 256` consecutive calls return pairwise distinct
values, the 257th call repeats the first, and every call returns the
previous value plus one modulo 256. -/
theorem C6_seq_allocator (s0 : Nat) :
    (∀ N, N ≤ 256 → ∀ i j, i < N → j < N → i ≠ j → seqIdAt s0 i ≠ seqIdAt s0 j) ∧
    seqIdAt s0 256 = seqIdAt s0 0 ∧
    (∀ k, seqIdAt s0 (k + 1) = (seqIdAt s0 k + 1) % 256) := by
  refine ⟨?_, ?_, ?_⟩
  · intro N hN i j hi hj hij
    simp only [seqIdAt, seqStateAfter_closed]
    omega
  · simp only [seqIdAt, seqStateAfter_closed]
    omega
  · intro k
    simp only [seqIdAt, seqStateAfter_closed]
    omega

/-- Witness for C6: two of the first 256 values from initial byte 9. -/
theorem C6_seq_allocator_witness : seqIdAt 9 0 ≠ seqIdAt 9 255 :=
  (C6_seq_allocator 9).1 256 (by decide) 0 255 (by decide) (by decide) (by decide)

theorem encodeRequest_snd (linelength : Nat) (op : NmpOp) (group : NmpGroup)
    (id : Nat) (body : List Nat) (seqId : Nat) :
    (encodeRequest linelength op group id body seqId).2 =
      ⟨op, 0, body.length % 65536, group, seqId, id⟩ := rfl

theorem serialTransceive_ok_checks (linelength : Nat) (op : NmpOp)
    (group : NmpGroup) (id : Nat) (body : List Nat) (seqId : Nat)
    (stream : List Nat) (rh : NmpHdr) (rbody : List Nat)
    (hok : serialTransceive linelength op group id body seqId stream = .ok rh rbody) :
    rh.seq = seqId ∧ expectedOpType op = some rh.op ∧ rh.group = group := by
  simp only [serialTransceive, encodeRequest_snd] at hok
  cases hrf : recvFrame stream <;> rw [hrf] at hok <;> dsimp only at hok
  case err => exact absurd hok (by simp)
  case panic => exact absurd hok (by simp)
  case ok data =>
  cases hds : NmpHdr.deserialize data <;> rw [hds] at hok <;> dsimp only at hok
  case eofErr => exact absurd hok (by simp)
  case panic => exact absurd hok (by simp)
  case ok rh2 =>
  by_cases hseq : rh2.seq = seqId
  · rw [if_neg (by simpa using hseq)] at hok
    cases hop : expectedOpType op <;> rw [hop] at hok <;> dsimp only at hok
    · exact absurd hok (by simp)
    · rename_i expected
      by_cases hmk : rh2.op = expected ∧ rh2.group = group
      · rw [if_neg (by simp [hmk.1, hmk.2])] at hok
        simp only [TransOut.ok.injEq] at hok
        obtain ⟨rfl, rfl⟩ := hok
        exact ⟨hseq, by simp [hop, hmk.1], hmk.2⟩
      · rw [if_pos (by tauto)] at hok
        exact absurd hok (by simp)
  · rw [if_pos (by simpa using hseq)] at hok
    exact absurd hok (by simp)

theorem serialTransceive_mismatch (linelength : Nat) (op : NmpOp) (group : NmpGroup)
    (id : Nat) (body : List Nat) (seqId : Nat) (stream data : List Nat)
    (rh : NmpHdr) (e : NmpOp)
    (hrf : recvFrame stream = .ok data) (hds : NmpHdr.deserialize data = .ok rh)
    (hop : expectedOpType op = some e)
    (hbad : ¬(rh.seq = seqId ∧ rh.op = e ∧ rh.group = group)) :
    serialTransceive linelength op group id body seqId stream = .errWrongResponse := by
  simp only [serialTransceive, encodeRequest_snd, hrf, hds]
  by_cases hseq : rh.seq = seqId
  · rw [if_neg (by simpa using hseq), hop]
    dsimp only
    rw [if_pos (by tauto)]
  · rw [if_pos (by simpa using hseq)]

theorem udpTransceive_ok_checks (op : NmpOp) (group : NmpGroup) (id : Nat)
    (body : List Nat) (seqId : Nat) (dg : List Nat) (rh : NmpHdr) (b : UdpBody)
    (hok : udpTransceive op group id body seqId dg = .ok rh b) :
    rh.seq = seqId ∧ expectedOpType op = some rh.op ∧ rh.group = group := by
  unfold udpTransceive at hok
  by_cases hlen : dg.length < 8
  · rw [if_pos hlen] at hok
    exact absurd hok (by simp)
  · rw [if_neg hlen] at hok
    cases hdec : udpDecodeHeader dg <;> rw [hdec] at hok <;> dsimp only at hok
    case neg.errShort => exact absurd hok (by simp)
    case neg.errUnknownOp => exact absurd hok (by simp)
    case neg.errUnknownGroup => exact absurd hok (by simp)
    case neg.ok rh2 =>
    by_cases hseq : rh2.seq = seqId
    · rw [if_neg (by simpa using hseq)] at hok
      cases hop : expectedOpType op <;> rw [hop] at hok <;> dsimp only at hok
      · exact absurd hok (by simp)
      · rename_i e
        by_cases hmk : rh2.op = e ∧ rh2.group = group
        · rw [if_neg (by simp [hmk.1, hmk.2])] at hok
          simp only [UdpTransOut.ok.injEq] at hok
          obtain ⟨rfl, -⟩ := hok
          exact ⟨hseq, by simp [hop, hmk.1], hmk.2⟩
        · rw [if_pos (by tauto)] at hok
          exact absurd hok (by simp)
    · rw [if_pos (by simpa using hseq)] at hok
      exact absurd hok (by simp)

theorem udpTransceive_mismatch (op : NmpOp) (group : NmpGroup) (id : Nat)
    (body : List Nat) (seqId : Nat) (dg : List Nat) (rh : NmpHdr) (e : NmpOp)
    (hlen : ¬ dg.length < 8) (hdec : udpDecodeHeader dg = .ok rh)
    (hop : expectedOpType op = some e)
    (hbad : ¬(rh.seq = seqId ∧ rh.op = e ∧ rh.group = group)) :
    udpTransceive op group id body seqId dg = .errWrongResponse := by
  unfold udpTransceive
  rw [if_neg hlen, hdec]
  dsimp only
  by_cases hseq : rh.seq = seqId
  · rw [if_neg (by simpa using hseq), hop]
    dsimp only
    rw [if_pos (by tauto)]
  · rw [if_pos (by simpa using hseq)]

theorem udpTransceive_short (op : NmpOp) (group : NmpGroup) (id : Nat)
    (body : List Nat) (seqId : Nat) (dg : List Nat) (hlen : dg.length < 8) :
    udpTransceive op group id body seqId dg = .errShort := by
  unfold udpTransceive
  rw [if_pos hlen]

theorem udpTransceive_exact8_body (op : NmpOp) (group : NmpGroup) (id : Nat)
    (body : List Nat) (seqId : Nat) (dg : List Nat) (rh : NmpHdr) (b : UdpBody)
    (hlen : dg.length = 8)
    (hok : udpTransceive op group id body seqId dg = .ok rh b) :
    b = .emptyMap := by
  unfold udpTransceive at hok
  rw [if_neg (by omega)] at hok
  cases hdec : udpDecodeHeader dg <;> rw [hdec] at hok <;> dsimp only at hok
  case errShort => exact absurd hok (by simp)
  case errUnknownOp => exact absurd hok (by simp)
  case errUnknownGroup => exact absurd hok (by simp)
  case ok rh2 =>
  have hdrop : dg.drop 8 = [] := by
    rw [← hlen]
    exact List.drop_length dg
  rw [hdrop] at hok
  by_cases hseq : rh2.seq = seqId
  · rw [if_neg (by simpa using hseq)] at hok
    cases hop : expectedOpType op <;> rw [hop] at hok <;> dsimp only at hok
    · exact absurd hok (by simp)
    · rename_i e
      by_cases hmk : rh2.op = e ∧ rh2.group = group
      · rw [if_neg (by simp [hmk.1, hmk.2])] at hok
        simp only [UdpTransOut.ok.injEq] at hok
        exact hok.2.symm
      · rw [if_pos (by tauto)] at hok
        exact absurd hok (by simp)
  · rw [if_pos (by simpa using hseq)] at hok
    exact absurd hok (by simp)

/-- C2: for both transports, a successful `transceive` guarantees the
response header echoes the request: same `seq`, the response polarity of
the request `op` (`Read → ReadRsp`, `Write → WriteRsp`), and the same
`group`; and whenever the received frame decodes to a header failing any of
these checks, `transceive` returns the wrong-response error instead of a
result. -/
theorem C2_transceive_header_validation :
    (∀ (linelength : Nat) (op : NmpOp) (group : NmpGroup) (id : Nat)
       (body : List Nat) (seqId : Nat) (stream : List Nat) (rh : NmpHdr)
       (rbody : List Nat),
       serialTransceive linelength op group id body seqId stream = .ok rh rbody →
       rh.seq = seqId ∧ expectedOpType op = some rh.op ∧ rh.group = group) ∧
    (∀ (linelength : Nat) (op : NmpOp) (group : NmpGroup) (id : Nat)
       (body : List Nat) (seqId : Nat) (stream data : List Nat) (rh : NmpHdr)
       (e : NmpOp),
       recvFrame stream = .ok data → NmpHdr.deserialize data = .ok rh →
       expectedOpType op = some e →
       ¬(rh.seq = seqId ∧ rh.op = e ∧ rh.group = group) →
       serialTransceive linelength op group id body seqId stream = .errWrongResponse) ∧
    (∀ (op : NmpOp) (group : NmpGroup) (id : Nat) (body : List Nat) (seqId : Nat)
       (dg : List Nat) (rh : NmpHdr) (b : UdpBody),
       udpTransceive op group id body seqId dg = .ok rh b →
       rh.seq = seqId ∧ expectedOpType op = some rh.op ∧ rh.group = group) ∧
    (∀ (op : NmpOp) (group : NmpGroup) (id : Nat) (body : List Nat) (seqId : Nat)
       (dg : List Nat) (rh : NmpHdr) (e : NmpOp),
       ¬ dg.length < 8 → udpDecodeHeader dg = .ok rh → expectedOpType op = some e →
       ¬(rh.seq = seqId ∧ rh.op = e ∧ rh.group = group) →
       udpTransceive op group id body seqId dg = .errWrongResponse) :=
  ⟨serialTransceive_ok_checks, serialTransceive_mismatch,
   udpTransceive_ok_checks, udpTransceive_mismatch⟩

set_option maxRecDepth 10000 in
unseal chunkLoop recvLoop in
/-- Witness for C2: a serial loopback response frame carrying a `ReadRsp`
header with matching `seq` and `group` passes the checks. -/
theorem C2_transceive_header_validation_witness :
    (⟨NmpOp.ReadRsp, 0, 0, NmpGroup.Default, 7, 0⟩ : NmpHdr).seq = 7 ∧
    expectedOpType NmpOp.Read =
      some (⟨NmpOp.ReadRsp, 0, 0, NmpGroup.Default, 7, 0⟩ : NmpHdr).op ∧
    (⟨NmpOp.ReadRsp, 0, 0, NmpGroup.Default, 7, 0⟩ : NmpHdr).group =
      NmpGroup.Default :=
  C2_transceive_header_validation.1 8 NmpOp.Read NmpGroup.Default 0 [] 7
    (encodeRequest 8 NmpOp.ReadRsp NmpGroup.Default 0 [] 7).1
    ⟨NmpOp.ReadRsp, 0, 0, NmpGroup.Default, 7, 0⟩ [] (by decide)

/-- C8: the UDP transceive rejects datagrams shorter than 8 bytes with the
framing (`Response too short`) error, and a successful call on a datagram
of exactly 8 bytes materializes the empty tail as an empty CBOR map. -/
theorem C8_udp_short_and_empty_body :
    (∀ (op : NmpOp) (group : NmpGroup) (id : Nat) (body : List Nat)
       (seqId : Nat) (dg : List Nat), dg.length < 8 →
       udpTransceive op group id body seqId dg = .errShort) ∧
    (∀ (op : NmpOp) (group : NmpGroup) (id : Nat) (body : List Nat)
       (seqId : Nat) (dg : List Nat) (rh : NmpHdr) (b : UdpBody),
       dg.length = 8 → udpTransceive op group id body seqId dg = .ok rh b →
       b = .emptyMap) :=
  ⟨udpTransceive_short, udpTransceive_exact8_body⟩

/-- Witness for C8 at a 3-byte datagram and an exactly-8-byte datagram. -/
theorem C8_udp_short_and_empty_body_witness :
    udpTransceive NmpOp.Read NmpGroup.Default 0 [] 0 [1, 2, 3] =
      UdpTransOut.errShort ∧
    UdpBody.emptyMap = UdpBody.emptyMap :=
  ⟨C8_udp_short_and_empty_body.1 NmpOp.Read NmpGroup.Default 0 [] 0 [1, 2, 3]
      (by decide),
   C8_udp_short_and_empty_body.2 NmpOp.Read NmpGroup.Default 0 [] 0
      [9, 0, 0, 0, 0, 0, 0, 0] ⟨NmpOp.ReadRsp, 0, 0, NmpGroup.Default, 0, 0⟩
      UdpBody.emptyMap (by decide) (by decide)⟩

/-- C5: structure of the serial framer's outbound encoding.  Writing `B`
for the serialized request header followed by the body: the emitted stream
is exactly the base64 text of `(|B|+2) BE16 || B || crc16-xmodem(B) BE16`,
cut into line payloads of at most `linelength - 4` bytes, the first line
prefixed by `0x06 0x09`, each later line by `0x04 0x14`, every line closed
by exactly one `0x0A` (no payload byte is `0x0A`), and the concatenation of
the line payloads is the full base64 text. -/
theorem C5_encode_request_structure (linelength : Nat) (op : NmpOp)
    (group : NmpGroup) (id : Nat) (body : List Nat) (seqId : Nat)
    (hll : 6 ≤ linelength) (hblen : body.length ≤ 65525) :
    ∃ B buf : List Nat,
      B = (encodeRequest linelength op group id body seqId).2.serialize ++ body ∧
      buf = (B.length + 2) / 256 :: (B.length + 2) % 256 ::
            (B ++ [crc16Xmodem B / 256, crc16Xmodem B % 256]) ∧
      (encodeRequest linelength op group id body seqId).1 =
        renderLines true (b64Lines (linelength - 4) (b64Encode buf)) ∧
      (b64Lines (linelength - 4) (b64Encode buf)).flatten = b64Encode buf ∧
      (∀ c ∈ b64Lines (linelength - 4) (b64Encode buf),
        c.length ≤ linelength - 4 ∧ c ≠ [] ∧ ∀ x ∈ c, x ≠ 10) := by
  set hdr : NmpHdr :=
    { op := op, flags := 0, len := body.length % 65536, group := group,
      seq := seqId, id := id } with hhdr
  have hdr2 : (encodeRequest linelength op group id body seqId).2 = hdr := rfl
  refine ⟨hdr.serialize ++ body,
    ((hdr.serialize ++ body).length + 2) / 256 ::
      ((hdr.serialize ++ body).length + 2) % 256 ::
      ((hdr.serialize ++ body) ++
        [crc16Xmodem (hdr.serialize ++ body) / 256,
         crc16Xmodem (hdr.serialize ++ body) % 256]), by rw [hdr2], rfl, ?_, ?_, ?_⟩
  · -- the stream is the rendering of the line decomposition
    have hlen : (hdr.serialize ++ body).length = 8 + body.length := by
      rw [List.length_append, serialize_length]
    have hcrclt := crc16Xmodem_lt (hdr.serialize ++ body)
    have hframed : u16beBytes ((hdr.serialize ++ body ++
          u16beBytes (crc16Xmodem (hdr.serialize ++ body))).length) ++
        (hdr.serialize ++ body ++ u16beBytes (crc16Xmodem (hdr.serialize ++ body))) =
        ((hdr.serialize ++ body).length + 2) / 256 ::
          ((hdr.serialize ++ body).length + 2) % 256 ::
          ((hdr.serialize ++ body) ++
            [crc16Xmodem (hdr.serialize ++ body) / 256,
             crc16Xmodem (hdr.serialize ++ body) % 256]) := by
      have h1 : (hdr.serialize ++ body ++
          u16beBytes (crc16Xmodem (hdr.serialize ++ body))).length =
          (hdr.serialize ++ body).length + 2 := by
        simp [u16beBytes]
        omega
      rw [h1, u16beBytes_append]
      have h2 : ((hdr.serialize ++ body).length + 2) / 256 % 256 =
          ((hdr.serialize ++ body).length + 2) / 256 := by omega
      have h3 : crc16Xmodem (hdr.serialize ++ body) / 256 % 256 =
          crc16Xmodem (hdr.serialize ++ body) / 256 := by omega
      rw [h2]
      simp only [u16beBytes, h3, List.append_assoc]
    have : (encodeRequest linelength op group id body seqId).1 =
        chunkLoop (linelength - 4) true
          (b64Encode (u16beBytes ((hdr.serialize ++ body ++
            u16beBytes (crc16Xmodem (hdr.serialize ++ body))).length) ++
            (hdr.serialize ++ body ++
              u16beBytes (crc16Xmodem (hdr.serialize ++ body))))) := by
      unfold encodeRequest
      simp only [← hhdr]
    rw [this, hframed, chunkLoop_eq_renderLines]
  · exact b64Lines_join _ _ (by omega)
  · intro c hc
    obtain ⟨h1, h2, h3⟩ := b64Lines_mem _ _ c hc
    exact ⟨h1, h2, fun x hx => b64Encode_ne_newline _ x (h3 x hx)⟩

/-- Witness for C5 at `linelength = 6` with a one-byte body. -/
theorem C5_encode_request_structure_witness :
    ∃ B buf : List Nat,
      B = (encodeRequest 6 NmpOp.Read NmpGroup.Default 0 [1] 2).2.serialize ++ [1] ∧
      buf = (B.length + 2) / 256 :: (B.length + 2) % 256 ::
            (B ++ [crc16Xmodem B / 256, crc16Xmodem B % 256]) ∧
      (encodeRequest 6 NmpOp.Read NmpGroup.Default 0 [1] 2).1 =
        renderLines true (b64Lines 2 (b64Encode buf)) ∧
      (b64Lines 2 (b64Encode buf)).flatten = b64Encode buf ∧
      (∀ c ∈ b64Lines 2 (b64Encode buf),
        c.length ≤ 2 ∧ c ≠ [] ∧ ∀ x ∈ c, x ≠ 10) :=
  C5_encode_request_structure 6 NmpOp.Read NmpGroup.Default 0 [1] 2
    (by decide) (by decide)

/-- C7 counterexample: `shell_exec` performs no rc gate.  On a well-formed
shell response map with integer `rc = 1 ≠ 0`, the adapter returns the
parsed `ShellExecRsp` as a success value instead of a device error,
falsifying the claim's quantification over all adapters. -/
theorem C7_counterexample :
    get_rc (CborValue.Map [(CborValue.Text "o", CborValue.Text "x"),
      (CborValue.Text "rc", CborValue.Integer 1)]) = some 1 ∧
    (1 : Int) ≠ 0 ∧
    shellExecHandle (CborValue.Map [(CborValue.Text "o", CborValue.Text "x"),
      (CborValue.Text "rc", CborValue.Integer 1)]) = some ⟨"x", 1⟩ := by
  refine ⟨?_, by decide, ?_⟩ <;> rfl

/-- C7 (amended): every adapter that runs the `get_rc` gate (modelled here
by the file-upload loop and the download step) fails with the device error
`rc` whenever the response map holds an integer `rc ≠ 0`; `shell_exec` has
no gate and instead surfaces `rc` inside its parsed response. -/
theorem C7_rc_gate_amended :
    (∀ (name : String) (fileData : List Nat) (mtu : Nat) (rsp : CborValue)
       (rest : List CborValue) (offset : Nat) (rc : Int),
       offset < fileData.length → get_rc rsp = some rc → rc ≠ 0 →
       (uploadLoop name fileData mtu (rsp :: rest) offset).1 = .deviceErr rc) ∧
    (∀ (offset : Nat) (totalLen : Option Nat) (v : CborValue) (rc : Int),
       get_rc v = some rc → rc ≠ 0 →
       downloadStep offset totalLen v = .deviceErr rc) ∧
    (∀ (o : String) (rc : Int), -2 ^ 31 ≤ rc → rc < 2 ^ 31 →
       shellExecHandle (CborValue.Map [(CborValue.Text "o", CborValue.Text o),
         (CborValue.Text "rc", CborValue.Integer rc)]) = some ⟨o, rc⟩) := by
  refine ⟨?_, ?_, ?_⟩
  · intro name fileData mtu rsp rest offset rc hofs hgrc hrc
    have hgate : rcGate rsp = some rc := by
      unfold rcGate
      rw [hgrc]
      dsimp only
      rw [if_pos hrc]
    rw [uploadLoop, if_pos hofs]
    dsimp only
    rw [hgate]
  · intro offset totalLen v rc hgrc hrc
    have hgate : rcGate v = some rc := by
      unfold rcGate
      rw [hgrc]
      dsimp only
      rw [if_pos hrc]
    unfold downloadStep
    rw [hgate]
  · intro o rc h1 h2
    have hlo : lookupTextKey [(CborValue.Text "o", CborValue.Text o),
        (CborValue.Text "rc", CborValue.Integer rc)] "o" = some (CborValue.Text o) := rfl
    have hlrc : lookupTextKey [(CborValue.Text "o", CborValue.Text o),
        (CborValue.Text "rc", CborValue.Integer rc)] "rc" =
        some (CborValue.Integer rc) := rfl
    unfold shellExecHandle parseShellExecRsp
    dsimp only
    rw [hlo]
    dsimp only
    rw [hlrc]
    dsimp only
    rw [if_pos ⟨h1, h2⟩]

/-- Witness for C7 (amended) at concrete responses. -/
theorem C7_rc_gate_amended_witness :
    (uploadLoop "f" [1, 2] 1
      [CborValue.Map [(CborValue.Text "rc", CborValue.Integer 3)]] 0).1 =
      UploadOut.deviceErr 3 ∧
    downloadStep 0 none (CborValue.Map [(CborValue.Text "rc", CborValue.Integer 5)]) =
      DownloadStepOut.deviceErr 5 ∧
    shellExecHandle (CborValue.Map [(CborValue.Text "o", CborValue.Text "hi"),
      (CborValue.Text "rc", CborValue.Integer 2)]) = some ⟨"hi", 2⟩ :=
  ⟨C7_rc_gate_amended.1 "f" [1, 2] 1
      (CborValue.Map [(CborValue.Text "rc", CborValue.Integer 3)]) [] 0 3
      (by decide) rfl (by decide),
   C7_rc_gate_amended.2.1 0 none
      (CborValue.Map [(CborValue.Text "rc", CborValue.Integer 5)]) 5 rfl (by decide),
   C7_rc_gate_amended.2.2 "hi" 2 (by decide) (by decide)⟩

/-- C10 counterexample: `get_rc` does return `None` for a non-integer
`"rc"` value, but the download adapter does not then treat the response as
success: the typed `FsDownloadRsp` decode fails (its `rc: i32` field sees a
text), so the adapter raises a decode error rather than no error. -/
theorem C10_counterexample :
    get_rc (CborValue.Map [(CborValue.Text "off", CborValue.Integer 0),
      (CborValue.Text "data", CborValue.Bytes []),
      (CborValue.Text "rc", CborValue.Text "boom")]) = none ∧
    downloadStep 0 none (CborValue.Map [(CborValue.Text "off", CborValue.Integer 0),
      (CborValue.Text "data", CborValue.Bytes []),
      (CborValue.Text "rc", CborValue.Text "boom")]) = DownloadStepOut.parseErr := by
  constructor <;> rfl

/-- C10 (amended): when no map entry pairs the text key `"rc"` with a CBOR
integer, `get_rc` returns `None` and the rc gate raises no device error;
whether the adapter then succeeds is up to its typed decode (download's
fails on a non-integer `rc`, since `FsDownloadRsp` declares the field). -/
theorem C10_rc_non_integer_amended :
    (∀ entries : List (CborValue × CborValue),
       (∀ i : Int, (CborValue.Text "rc", CborValue.Integer i) ∉ entries) →
       get_rc (CborValue.Map entries) = none) ∧
    (∀ (offset : Nat) (totalLen : Option Nat) (v : CborValue) (rc : Int),
       get_rc v = none → downloadStep offset totalLen v ≠ .deviceErr rc) := by
  constructor
  · intro entries h
    induction entries with
    | nil => rfl
    | cons p rest ih =>
      have hrest : ∀ i : Int, (CborValue.Text "rc", CborValue.Integer i) ∉ rest :=
        fun i hi => h i (List.mem_cons_of_mem _ hi)
      obtain ⟨k, v⟩ := p
      have ihr : getRcEntries rest = none := ih hrest
      cases k <;> cases v <;> simp only [get_rc, getRcEntries] <;> try exact ihr
      rename_i s i
      by_cases hs : s = "rc"
      · subst hs
        exact absurd (List.mem_cons_self _ _) (h i)
      · rw [if_neg hs]
        exact ihr
  · intro offset totalLen v rc hgrc heq
    have hgate : rcGate v = none := by
      unfold rcGate
      rw [hgrc]
    unfold downloadStep at heq
    rw [hgate] at heq
    dsimp only at heq
    cases hp : parseFsDownloadRsp v <;> rw [hp] at heq <;> dsimp only at heq
    · exact absurd heq (by simp)
    · split_ifs at heq

/-- Witness for C10 (amended) at a map carrying `"rc"` as text. -/
theorem C10_rc_non_integer_amended_witness :
    get_rc (CborValue.Map [(CborValue.Text "rc", CborValue.Text "x")]) = none ∧
    downloadStep 0 none (CborValue.Map [(CborValue.Text "rc", CborValue.Text "x")]) ≠
      DownloadStepOut.deviceErr 7 :=
  ⟨C10_rc_non_integer_amended.1 [(CborValue.Text "rc", CborValue.Text "x")]
      (by intro i hi; simp at hi),
   C10_rc_non_integer_amended.2 0 none
      (CborValue.Map [(CborValue.Text "rc", CborValue.Text "x")]) 7 rfl⟩

set_option maxRecDepth 10000 in
unseal chunkLoop recvLoop in
/-- C1 counterexample: at `linelength = 6` the serial receiver does not
reassemble the frame.  Each chunk carries two base64 characters, and after
the first chunk the receiver base64-decodes the 2-character accumulation,
which the strict (canonically padded) decoder rejects, so `transceive`
fails instead of returning the `header || body` bytes. -/
theorem C1_linelength6_fails :
    recvFrame (encodeRequest 6 NmpOp.Read NmpGroup.Default 0 [] 0).1 ≠
      RecvOut.ok ((encodeRequest 6 NmpOp.Read NmpGroup.Default 0 [] 0).2.serialize
        ++ []) := by
  decide

/-- C1 (amended): for every request header (with `len` set to the body
length) and body, and every `linelength ≥ 8` divisible by 4 (so that each
full line carries a whole number of base64 quanta), feeding the serial
framer's output through the serial receive path (marker check, accumulate
to newline, base64-decode, length check, CRC16/XMODEM check) reassembles
exactly the original `header || body` bytes, the CRC check passing.  The
claim's `linelength = 6` case is false (see the counterexample): there the
receiver's per-chunk decode of a 2-character base64 accumulation fails. -/
theorem C1_serial_roundtrip_amended (linelength : Nat) (op : NmpOp)
    (group : NmpGroup) (id : Nat) (body : List Nat) (seqId : Nat)
    (hll : 8 ≤ linelength) (hmod : linelength % 4 = 0)
    (hbody : ∀ x ∈ body, x < 256) (hblen : body.length ≤ 65525) :
    recvFrame (encodeRequest linelength op group id body seqId).1 =
      RecvOut.ok ((encodeRequest linelength op group id body seqId).2.serialize
        ++ body) :=
  recvFrame_encodeRequest linelength op group id body seqId hll hmod hbody hblen

set_option maxRecDepth 10000 in
unseal chunkLoop recvLoop in
/-- Witness for C1 (amended) at `linelength = 8` with a three-byte body. -/
theorem C1_serial_roundtrip_amended_witness :
    recvFrame (encodeRequest 8 NmpOp.Write NmpGroup.Fs 0 [1, 2, 3] 5).1 =
      RecvOut.ok ((encodeRequest 8 NmpOp.Write NmpGroup.Fs 0 [1, 2, 3] 5).2.serialize
        ++ [1, 2, 3]) :=
  C1_serial_roundtrip_amended 8 NmpOp.Write NmpGroup.Fs 0 [1, 2, 3] 5
    (by decide) (by decide) (by decide) (by decide)

theorem uploadChunkSize_le (mtu offset totalLen : Nat) :
    uploadChunkSize mtu offset totalLen ≤ mtu := by
  unfold uploadChunkSize
  split <;> omega

theorem uploadLoop_trace (name : String) (fileData : List Nat) (mtu : Nat) :
    ∀ (responses : List CborValue) (offset : Nat) (out : UploadOut)
      (reqs : List FsUploadReqM),
      uploadLoop name fileData mtu responses offset = (out, reqs) →
      (∀ r ∈ reqs, r.name = name ∧ r.off < fileData.length ∧
        r.data = (fileData.drop r.off).take (uploadChunkSize mtu r.off fileData.length) ∧
        r.data.length ≤ mtu ∧
        r.len = (if r.off = 0 then some fileData.length else none)) ∧
      (∀ f, out = .done f → fileData.length ≤ f) ∧
      (offset < fileData.length → reqs ≠ []) ∧
      (fileData.length ≤ offset → out = .done offset ∧ reqs = []) ∧
      (∀ r0, reqs.head? = some r0 → r0.off = offset) ∧
      (∀ k r2, reqs[k + 1]? = some r2 →
        ∃ v r, responses[k]? = some v ∧ rcGate v = none ∧
          parseFsUploadRsp v = some r ∧ r2.off = r.off) := by
  intro responses
  induction responses with
  | nil =>
    intro offset out reqs h
    rw [uploadLoop] at h
    by_cases hofs : offset < fileData.length
    · rw [if_pos hofs] at h
      dsimp only at h
      injection h with h1 h2
      subst h1
      subst h2
      refine ⟨?_, by simp, fun _ => by simp, fun hc => absurd hc (by omega), ?_, ?_⟩
      · intro r hr
        simp only [List.mem_singleton] at hr
        subst hr
        exact ⟨rfl, hofs, rfl,
          le_trans (List.length_take_le _ _) (uploadChunkSize_le _ _ _), rfl⟩
      · intro r0 h0
        simp only [List.head?_cons, Option.some.injEq] at h0
        subst h0
        rfl
      · intro k r2 h2
        simp at h2
    · rw [if_neg hofs] at h
      injection h with h1 h2
      subst h1
      subst h2
      refine ⟨by simp, ?_, fun hc => absurd hc hofs, fun _ => ⟨rfl, rfl⟩, by simp, by simp⟩
      intro f hf
      injection hf with hf2
      omega
  | cons rsp rest ih =>
    intro offset out reqs h
    rw [uploadLoop] at h
    by_cases hofs : offset < fileData.length
    · rw [if_pos hofs] at h
      dsimp only at h
      cases hrc : rcGate rsp <;> rw [hrc] at h <;> dsimp only at h
      · cases hp : parseFsUploadRsp rsp <;> rw [hp] at h <;> dsimp only at h
        ·
          injection h with h1 h2
          subst h1
          subst h2
          refine ⟨?_, by simp, fun _ => by simp, fun hc => absurd hc (by omega), ?_, ?_⟩
          · intro r hr
            simp only [List.mem_singleton] at hr
            subst hr
            exact ⟨rfl, hofs, rfl,
              le_trans (List.length_take_le _ _) (uploadChunkSize_le _ _ _), rfl⟩
          · intro r0 h0
            simp only [List.head?_cons, Option.some.injEq] at h0
            subst h0
            rfl
          · intro k r2 h2
            simp at h2
        · rename_i r
          rcases hP : uploadLoop name fileData mtu rest r.off with ⟨out2, reqs2⟩
          rw [hP] at h
          dsimp only at h
          injection h with h1 h2
          subst h1
          subst h2
          obtain ⟨ih1, ih2, ih3, ih4, ih5, ih6⟩ := ih r.off out2 reqs2 hP
          refine ⟨?_, ih2, fun _ => by simp, fun hc => absurd hc (by omega), ?_, ?_⟩
          · intro q hq
            simp only [List.mem_cons] at hq
            rcases hq with rfl | hq
            · exact ⟨rfl, hofs, rfl,
                le_trans (List.length_take_le _ _) (uploadChunkSize_le _ _ _), rfl⟩
            · exact ih1 q hq
          · intro r0 h0
            simp only [List.head?_cons, Option.some.injEq] at h0
            subst h0
            rfl
          · intro k r2 h2
            match k with
            | 0 =>
              simp only [List.getElem?_cons_succ] at h2
              refine ⟨rsp, r, by simp, hrc, hp, ?_⟩
              apply ih5
              rw [List.head?_eq_getElem?]
              exact h2
            | k + 1 =>
              simp only [List.getElem?_cons_succ] at h2
              obtain ⟨v, r3, hv, hg, hpp, hoff⟩ := ih6 k r2 h2
              exact ⟨v, r3, by simpa using hv, hg, hpp, hoff⟩
      · injection h with h1 h2
        subst h1
        subst h2
        refine ⟨?_, by simp, fun _ => by simp, fun hc => absurd hc (by omega), ?_, ?_⟩
        · intro r hr
          simp only [List.mem_singleton] at hr
          subst hr
          exact ⟨rfl, hofs, rfl,
            le_trans (List.length_take_le _ _) (uploadChunkSize_le _ _ _), rfl⟩
        · intro r0 h0
          simp only [List.head?_cons, Option.some.injEq] at h0
          subst h0
          rfl
        · intro k r2 h2
          simp at h2
    · rw [if_neg hofs] at h
      injection h with h1 h2
      subst h1
      subst h2
      refine ⟨by simp, ?_, fun hc => absurd hc hofs, fun _ => ⟨rfl, rfl⟩, by simp, by simp⟩
      intro f hf
      injection hf with hf2
      omega

theorem uploadLoop_cons_ok (name : String) (fileData : List Nat)
    (mtu offset : Nat) (rsp : CborValue) (rest : List CborValue)
    (hofs : offset < fileData.length) (hrc : rcGate rsp = none)
    (r : FsUploadRspM) (hp : parseFsUploadRsp rsp = some r) :
    uploadLoop name fileData mtu (rsp :: rest) offset =
      ((uploadLoop name fileData mtu rest r.off).1,
        mkUploadReq name fileData mtu offset ::
          (uploadLoop name fileData mtu rest r.off).2) := by
  rw [uploadLoop, if_pos hofs]
  dsimp only
  rw [hrc]
  dsimp only
  rw [hp]

theorem uploadLoop_compliant (name : String) (fileData : List Nat) (mtu : Nat)
    (hm : 1 ≤ mtu) (h32 : fileData.length < 2 ^ 32) :
    ∀ offset, offset ≤ fileData.length → mtu ∣ (fileData.length - offset) →
    ∃ responses reqs,
      uploadLoop name fileData mtu responses offset =
        (.done fileData.length, reqs) := by
  suffices H : ∀ d offset, fileData.length - offset ≤ d →
      offset ≤ fileData.length → mtu ∣ (fileData.length - offset) →
      ∃ responses reqs, uploadLoop name fileData mtu responses offset =
        (.done fileData.length, reqs) from
    fun offset h1 h2 => H (fileData.length - offset) offset le_rfl h1 h2
  intro d
  induction d with
  | zero =>
    intro offset hd h1 h2
    refine ⟨[], [], ?_⟩
    rw [show offset = fileData.length by omega]
    rw [uploadLoop, if_neg (lt_irrefl _)]
  | succ d ihd =>
    intro offset hd h1 h2
    by_cases hofs : offset < fileData.length
    · have hmle : mtu ≤ fileData.length - offset := Nat.le_of_dvd (by omega) h2
      have hrc : rcGate (CborValue.Map
          [(CborValue.Text "off", CborValue.Integer ((offset + mtu : Nat) : Int))]) =
          none := rfl
      have hparse : parseFsUploadRsp (CborValue.Map
          [(CborValue.Text "off", CborValue.Integer ((offset + mtu : Nat) : Int))]) =
          some ⟨offset + mtu, 0⟩ := by
        unfold parseFsUploadRsp
        dsimp only
        rw [show lookupTextKey
            [(CborValue.Text "off", CborValue.Integer ((offset + mtu : Nat) : Int))]
            "off" = some (CborValue.Integer ((offset + mtu : Nat) : Int)) from rfl]
        dsimp only
        rw [if_pos ⟨Int.natCast_nonneg _,
          by exact_mod_cast (show offset + mtu < 2 ^ 32 by omega)⟩]
        rw [show lookupTextKey
            [(CborValue.Text "off", CborValue.Integer ((offset + mtu : Nat) : Int))]
            "rc" = none from rfl]
        dsimp only
        simp
        omega
      obtain ⟨responses2, reqs2, hrec⟩ := ihd (offset + mtu) (by omega) (by omega)
        (by
          have hsub := Nat.dvd_sub' h2 (dvd_refl mtu)
          rwa [Nat.sub_sub] at hsub)
      refine ⟨CborValue.Map
        [(CborValue.Text "off", CborValue.Integer ((offset + mtu : Nat) : Int))]
        :: responses2, mkUploadReq name fileData mtu offset :: reqs2, ?_⟩
      rw [uploadLoop_cons_ok name fileData mtu offset _ responses2 hofs hrc
        ⟨offset + mtu, 0⟩ hparse]
      dsimp only
      rw [hrec]
    · refine ⟨[], [], ?_⟩
      rw [show offset = fileData.length by omega]
      rw [uploadLoop, if_neg (lt_irrefl _)]

/-- **C9.** The upload loop of `upload_transport`: every request it sends
carries the file name, a `data` chunk of at most `mtu` bytes taken from the
file at the request's `off`, and a `len` field exactly on the `off = 0`
request (equal to the total file size); the first request starts at the
caller's offset and every later request's `off` is the `off` returned in
the previous (rc-clean, well-typed) response; the loop exits exactly when
the offset reaches the total length (with `done` at an offset at least the
file size, and an empty trace only in that case).  Moreover, when the file
size is an exact multiple of `mtu`, a compliant device run terminates
cleanly with `done total_len`. -/
theorem C9_upload_loop (name : String) (fileData : List Nat) (mtu : Nat)
    (responses : List CborValue) (offset : Nat) (out : UploadOut)
    (reqs : List FsUploadReqM)
    (h : uploadLoop name fileData mtu responses offset = (out, reqs)) :
    ((∀ r ∈ reqs, r.name = name ∧
        r.data = (fileData.drop r.off).take
          (uploadChunkSize mtu r.off fileData.length) ∧
        r.data.length ≤ mtu ∧
        r.len = (if r.off = 0 then some fileData.length else none)) ∧
      (∀ f, out = .done f → fileData.length ≤ f) ∧
      (offset < fileData.length → reqs ≠ []) ∧
      (fileData.length ≤ offset → out = .done offset ∧ reqs = []) ∧
      (∀ r0, reqs.head? = some r0 → r0.off = offset) ∧
      (∀ k r2, reqs[k + 1]? = some r2 →
        ∃ v r, responses[k]? = some v ∧ rcGate v = none ∧
          parseFsUploadRsp v = some r ∧ r2.off = r.off)) ∧
    (1 ≤ mtu → fileData.length < 2 ^ 32 → mtu ∣ fileData.length →
      ∃ responses2 reqs2,
        uploadLoop name fileData mtu responses2 0 =
          (.done fileData.length, reqs2)) := by
  obtain ⟨t1, t2, t3, t4, t5, t6⟩ :=
    uploadLoop_trace name fileData mtu responses offset out reqs h
  refine ⟨⟨fun r hr => ?_, t2, t3, t4, t5, t6⟩, fun hm h32 hd => ?_⟩
  · obtain ⟨a, b, c, d, e⟩ := t1 r hr
    exact ⟨a, c, d, e⟩
  · exact uploadLoop_compliant name fileData mtu hm h32 0 (Nat.zero_le _)
      (by simpa using hd)

theorem C9_upload_loop_witness :
    ((∀ r ∈ ([⟨"f", 0, [1, 2], some 4⟩, ⟨"f", 2, [3, 4], none⟩] :
          List FsUploadReqM),
        r.name = "f" ∧
        r.data = (([1, 2, 3, 4] : List Nat).drop r.off).take
          (uploadChunkSize 2 r.off ([1, 2, 3, 4] : List Nat).length) ∧
        r.data.length ≤ 2 ∧
        r.len = (if r.off = 0 then some ([1, 2, 3, 4] : List Nat).length
          else none)) ∧
      (∀ f, UploadOut.done 4 = .done f →
        ([1, 2, 3, 4] : List Nat).length ≤ f) ∧
      (0 < ([1, 2, 3, 4] : List Nat).length →
        ([⟨"f", 0, [1, 2], some 4⟩, ⟨"f", 2, [3, 4], none⟩] :
          List FsUploadReqM) ≠ []) ∧
      (([1, 2, 3, 4] : List Nat).length ≤ 0 →
        UploadOut.done 4 = .done 0 ∧
        ([⟨"f", 0, [1, 2], some 4⟩, ⟨"f", 2, [3, 4], none⟩] :
          List FsUploadReqM) = []) ∧
      (∀ r0, ([⟨"f", 0, [1, 2], some 4⟩, ⟨"f", 2, [3, 4], none⟩] :
          List FsUploadReqM).head? = some r0 → r0.off = 0) ∧
      (∀ k r2, (([⟨"f", 0, [1, 2], some 4⟩, ⟨"f", 2, [3, 4], none⟩] :
          List FsUploadReqM))[k + 1]? = some r2 →
        ∃ v r,
          ([CborValue.Map [(CborValue.Text "off", CborValue.Integer 2)],
            CborValue.Map
              [(CborValue.Text "off", CborValue.Integer 4)]])[k]? = some v ∧
          rcGate v = none ∧ parseFsUploadRsp v = some r ∧ r2.off = r.off)) ∧
    (1 ≤ 2 → ([1, 2, 3, 4] : List Nat).length < 2 ^ 32 →
      2 ∣ ([1, 2, 3, 4] : List Nat).length →
      ∃ responses2 reqs2,
        uploadLoop "f" [1, 2, 3, 4] 2 responses2 0 =
          (.done ([1, 2, 3, 4] : List Nat).length, reqs2)) :=
  C9_upload_loop "f" [1, 2, 3, 4] 2
    [CborValue.Map [(CborValue.Text "off", CborValue.Integer 2)],
      CborValue.Map [(CborValue.Text "off", CborValue.Integer 4)]]
    0 (UploadOut.done 4)
    [⟨"f", 0, [1, 2], some 4⟩, ⟨"f", 2, [3, 4], none⟩]
    (by rfl)

end McumgrClient
